import Mathlib

/-!
Shallow embedding of the bundns authoritative DNS server (TypeScript sources
under src/) and proofs about it.

Conventions:
* Bytes are modelled as `Nat` (each access in the source is bounds-guarded, so
  out-of-range reads never happen; `List.getD _ 0` mirrors `bytes[i]` after the
  source's own guards).
* JavaScript strings are Lean `String`s; `trim`, `toLowerCase`, `endsWith` are
  re-implemented on `List Char` with ASCII semantics (the data flowing through
  the server is ASCII domain-name text).
* SQLite queries over the `domains`/`records`/`ddns_tokens` tables are modelled
  as filters/sorts over Lean lists; `LIKE` is modelled with its real `%`/`_`
  wildcard semantics and ASCII case-insensitivity.
* `Math.random()` draws are modelled by an explicit `rng : Nat → Nat` argument
  (the k-th draw of a run is `rng k`); every theorem quantifies over `rng`, so
  it covers every sequence of draws the code can produce.
* Code that throws (`decodeName`, `normalizeFqdn`) returns `Except`/`Option`;
  the enclosing `try`/`catch` in callers corresponds to matching on the result.
-/

namespace BunDns

/-- ASCII lower-casing of one character, as JS `toLowerCase` acts on ASCII. -/
def lowerChar (c : Char) : Char :=
  if 65 ≤ c.toNat ∧ c.toNat ≤ 90 then Char.ofNat (c.toNat + 32) else c

/-- Lower-case every character of a string. -/
def lowerStr (s : String) : String := String.mk (s.data.map lowerChar)

/-- Whitespace characters relevant to `String.prototype.trim` on this data,
identified by code point. -/
def isWsChar (c : Char) : Bool :=
  c.toNat = 32 || c.toNat = 9 || c.toNat = 10 || c.toNat = 13 ||
  c.toNat = 11 || c.toNat = 12

/-- Strip whitespace from both ends of a character list (JS `trim`). -/
def trimList (l : List Char) : List Char :=
  ((l.dropWhile isWsChar).reverse.dropWhile isWsChar).reverse

def trimStr (s : String) : String := String.mk (trimList s.data)

/-- JS `String.prototype.endsWith`. -/
def strEndsWith (s suffix : String) : Bool := suffix.data.isSuffixOf s.data

/-- Drop the last character (JS `slice(0, -1)`). -/
def dropLastStr (s : String) : String := String.mk s.data.dropLast

/-! ### `db.ts` — `normalizeFqdn` / `normalizeDomain`

`normalizeFqdn` throws on the empty string; that is modelled by `Option`. -/

/-- `db.ts` `normalizeFqdn`: trim, lower-case, require nonempty, ensure a
trailing dot. `none` models the thrown `FQDN cannot be empty`. -/
def normalizeFqdn (input : String) : Option String :=
  let trimmed := lowerStr (trimStr input)
  if trimmed = "" then none
  else some (if strEndsWith trimmed "." then trimmed else trimmed ++ ".")

/-- `db.ts` `normalizeDomain`: canonical FQDN without the trailing dot. -/
def normalizeDomain (input : String) : Option String :=
  (normalizeFqdn input).map dropLastStr

/-! ### SQLite `LIKE` (used by `zonesBySuffixStmt`) -/

/-- SQLite `LIKE` on character lists: `%` matches any run, `_` one character,
other characters match ASCII case-insensitively. -/
def likeChars : List Char → List Char → Bool
  | [], s => s.isEmpty
  | p :: ps, s =>
    if p = '%' then
      (List.range (s.length + 1)).any fun n => likeChars ps (s.drop n)
    else
      match s with
      | [] => false
      | c :: t =>
        if p = '_' then likeChars ps t
        else (lowerChar p = lowerChar c) && likeChars ps t

/-- `x LIKE pattern` for strings. -/
def sqlLike (s pattern : String) : Bool := likeChars pattern.data s.data

/-! ### `dns-codec.ts` — wire parsing -/

/-- Big-endian 16-bit read (`DataView.getUint16(offset, false)`); every call
site in the source is bounds-guarded first. -/
def u16at (q : List Nat) (i : Nat) : Nat := 256 * q.getD i 0 + q.getD (i + 1) 0

/-- `Uint8Array.prototype.slice(a, b)`. -/
def sliceBytes (q : List Nat) (a b : Nat) : List Nat := (q.take b).drop a

/-- `TextDecoder` on DNS label bytes, one byte per character (ASCII labels;
multi-byte UTF-8 sequences are out of scope for the data handled here). -/
def bytesToStr (bs : List Nat) : String := String.mk (bs.map fun b => Char.ofNat b)

/-- Loop of `decodeName` (`dns-codec.ts` lines 23–68).  The `while
(guard++ < 200)` loop is transcribed as structural recursion on the remaining
fuel (`fuel = 200 - guard`, so the initial call passes 200); the source's
post-loop `guard >= 200` check is folded into the two loop exits: running out
of fuel throws, and a `break` on a terminator reached at the 200th iteration
(`fuel = 0` inside the body) also still throws, exactly as in the source. -/
def decodeNameAux (bytes : List Nat) :
    Nat → Nat → Bool → Nat → List String → Except String (List String × Nat)
  | 0, _, _, _, _ => .error "Name decode guard reached"
  | fuel + 1, offset, jumped, jumpNext, labels =>
    if offset ≥ bytes.length then .error "Name decode out of range"
    else
      let len0 := bytes.getD offset 0
      if len0 = 0 then
        if fuel = 0 then .error "Name decode guard reached"
        else .ok (labels, if jumped then jumpNext else offset + 1)
      else if len0 / 64 = 3 then
        if offset + 1 ≥ bytes.length then .error "Compression pointer out of range"
        else
          let ptr := len0 % 64 * 256 + bytes.getD (offset + 1) 0
          if jumped then decodeNameAux bytes fuel ptr jumped jumpNext labels
          else decodeNameAux bytes fuel ptr true (offset + 2) labels
      else
        let labelEnd := offset + 1 + len0
        if labelEnd > bytes.length then .error "Label out of range"
        else
          decodeNameAux bytes fuel labelEnd jumped jumpNext
            (labels ++ [bytesToStr (sliceBytes bytes (offset + 1) labelEnd)])

/-- `dns-codec.ts` `decodeName`: RFC 1035 name decoding with compression
pointers; throws (modelled by `.error`) on malformed input. -/
def decodeName (bytes : List Nat) (start : Nat) : Except String (String × Nat) :=
  match decodeNameAux bytes 200 start false 0 [] with
  | .error e => .error e
  | .ok (labels, next) =>
    .ok (if labels.isEmpty then "." else String.intercalate "." labels ++ ".", next)

/-- `types.ts` `QueryContext`. -/
structure QueryContext where
  id : Nat
  flags : Nat
  qtype : Nat
  qclass : Nat
  qname : String
  questionSection : List Nat
deriving DecidableEq, Repr

/-- `constants.ts` QTYPE numbers. -/
def QTYPE_A : Nat := 1

def QTYPE_NS : Nat := 2

def QTYPE_CNAME : Nat := 5

def QTYPE_SOA : Nat := 6

def QTYPE_PTR : Nat := 12

def QTYPE_MX : Nat := 15

def QTYPE_TXT : Nat := 16

def QTYPE_AAAA : Nat := 28

def QTYPE_SRV : Nat := 33

def QTYPE_CAA : Nat := 257

def QTYPE_ANY : Nat := 255

/-- `dns-codec.ts` `parseQuery` (lines 287–327).  Returning `none` models the
silent rejection (`return null`); the `try`/`catch` around `decodeName`
corresponds to the `.error` match arm.  The source's locals `id`/`flags`/
`qdcount`/`qr` are inlined (`qdcount` = the 16-bit word at offset 4, `qr` =
`(flags >> 15) & 1`).  The function is total: on no input does it throw. -/
def parseQuery (query : List Nat) : Option QueryContext :=
  if query.length < 12 then none
  else if u16at query 4 ≠ 1 then none
  else if u16at query 2 / 2 ^ 15 % 2 ≠ 0 then none
  else
    match decodeName query 12 with
    | .error _ => none
    | .ok (qname, next) =>
      if next + 4 > query.length then none
      else
        some { id := u16at query 0, flags := u16at query 2, qtype := u16at query next,
               qclass := u16at query (next + 2), qname := qname,
               questionSection := sliceBytes query 12 (next + 4) }

/-! ### Store model: `db.ts` schema rows and `repository.ts` prepared reads -/

/-- A row of the `domains` table (bare zone name, unique). -/
structure DomainRow where
  id : Nat
  name : String
deriving DecidableEq, Repr

/-- A row of the `records` table. -/
structure RecRow where
  id : Nat
  domain_id : Option Nat
  fqdn : String
  type : String
  ttl : Nat
  value : String
  weight : Nat
  geo_cidrs : String
  enabled : Nat
  healthcheck_url : Option String
  healthy : Nat
  last_health_check_at : Option Nat
  last_health_error : Option String
deriving DecidableEq, Repr

/-- A row of the `ddns_tokens` table (note the schema has BOTH a `token_value`
and a `token_hash` column). -/
structure DdnsTokenRow where
  id : Nat
  user_id : Nat
  domain_id : Nat
  fqdn : String
  token_value : String
  token_hash : String
  ttl : Nat
  enabled : Nat
deriving DecidableEq, Repr

/-- A row of the `ddns_updates` audit table. -/
structure DdnsUpdateRow where
  ddns_token_id : Nat
  ip : String
  previous_value : Option String
  new_value : String
  user_agent : String
deriving DecidableEq, Repr

/-- The durable SQLite store. -/
structure Db where
  domains : List DomainRow
  records : List RecRow
  ddnsTokens : List DdnsTokenRow
  ddnsUpdates : List DdnsUpdateRow
deriving DecidableEq, Repr

/-- `types.ts` `DnsRecord`: the columns the answer path serialises. -/
structure DnsRecord where
  type : String
  ttl : Nat
  value : String
deriving DecidableEq, Repr

def toDnsRecord (r : RecRow) : DnsRecord := ⟨r.type, r.ttl, r.value⟩

/-- `ORDER BY CASE type WHEN 'CNAME' THEN 0 WHEN 'A' THEN 1 WHEN 'AAAA' THEN 2
ELSE 3 END` in `getByNameStmt`. -/
def typeRank (t : String) : Nat :=
  if t == "CNAME" then 0 else if t == "A" then 1 else if t == "AAAA" then 2 else 3

def byTypeRankId (a b : RecRow) : Prop :=
  typeRank a.type < typeRank b.type ∨ (typeRank a.type = typeRank b.type ∧ a.id ≤ b.id)

instance : DecidableRel byTypeRankId := fun a b => by unfold byTypeRankId; infer_instance

/-- `repository.ts` `getByNameStmt`: rows for the exact canonical name, CNAME
before A before AAAA before the rest, then by id. -/
def getByName (db : Db) (fqdn : String) : List RecRow :=
  List.insertionSort byTypeRankId (db.records.filter fun r => r.fqdn == fqdn)

/-- `ORDER BY CASE type WHEN 'SOA' THEN 0 WHEN 'NS' THEN 1 ELSE 2 END` in
`authorityByZoneStmt`. -/
def authRank (t : String) : Nat := if t == "SOA" then 0 else if t == "NS" then 1 else 2

def byAuthRankId (a b : RecRow) : Prop :=
  authRank a.type < authRank b.type ∨ (authRank a.type = authRank b.type ∧ a.id ≤ b.id)

instance : DecidableRel byAuthRankId := fun a b => by unfold byAuthRankId; infer_instance

/-- `repository.ts` `authorityByZoneStmt`: SOA and NS rows owned by the zone
apex, SOA first.  Note the statement has NO `enabled` filter. -/
def authorityByZone (db : Db) (zoneFqdn : String) : List DnsRecord :=
  (List.insertionSort byAuthRankId (db.records.filter fun r =>
    r.fqdn == zoneFqdn && (r.type == "SOA" || r.type == "NS"))).map toDnsRecord

/-- `WHERE ?1 = name OR ?1 LIKE '%.' || name` of `zonesBySuffixStmt`: the `=`
comparison is SQLite's binary equality, the `LIKE` is ASCII
case-insensitive with `%`/`_` wildcards. -/
def zoneMatches (bare zone : String) : Bool := bare == zone || sqlLike bare ("%." ++ zone)

def byLenDesc (a b : String) : Prop := b.length ≤ a.length

instance : DecidableRel byLenDesc := fun a b => Nat.decLe b.length a.length

instance : IsTotal String byLenDesc := ⟨fun a b => Nat.le_total b.length a.length⟩

instance : IsTrans String byLenDesc := ⟨fun _ _ _ hab hbc => Nat.le_trans hbc hab⟩

/-- `repository.ts` `zonesBySuffixStmt`: matching zone names ordered by
`LENGTH(name) DESC` (the model fixes one order consistent with the SQL
`ORDER BY`; no two distinct matching wildcard-free zones can share a length,
so the order is in fact unique there). -/
def zonesBySuffix (domains : List DomainRow) (bare : String) : List String :=
  List.insertionSort byLenDesc ((domains.map DomainRow.name).filter (zoneMatches bare))

/-- `repository.ts` `resolveZoneName` (lines 137–141). -/
def resolveZoneName (domains : List DomainRow) (bare : String) : Option String :=
  (zonesBySuffix domains bare).head?.bind normalizeFqdn

/-- `repository.ts` `getAuthorityRecords` (lines 143–146). -/
def getAuthorityRecords (db : Db) (zoneName : Option String) : List DnsRecord :=
  match zoneName with
  | none => []
  | some z => authorityByZone db z

/-- `repository.ts` `healthTargetsStmt`: enabled rows with a non-blank
health-check URL. -/
def healthTargets (db : Db) : List (Nat × String) :=
  (db.records.filter fun r =>
    r.enabled == 1 &&
      (match r.healthcheck_url with
       | none => false
       | some u => !(trimStr u == ""))).map fun r => (r.id, r.healthcheck_url.getD "")

/-- `repository.ts` `updateHealthStmt`. -/
def updateHealth (db : Db) (healthy : Nat) (err : Option String) (now : Nat) (rid : Nat) : Db :=
  { db with
    records := db.records.map fun r =>
      if r.id == rid then
        { r with healthy := healthy, last_health_error := err,
                 last_health_check_at := some now }
      else r }

/-! ### Lookup cache (`repository.ts` `cache : Map<string, CacheEntry>`) -/

structure CacheEntry where
  expiresAt : Nat
  records : List RecRow
deriving DecidableEq, Repr

abbrev Cache := List (String × CacheEntry)

def cacheGet (c : Cache) (k : String) : Option CacheEntry :=
  (c.find? fun p => p.1 == k).map Prod.snd

def cacheSet (c : Cache) (k : String) (v : CacheEntry) : Cache :=
  if c.any (fun p => p.1 == k) then c.map fun p => if p.1 == k then (k, v) else p
  else c ++ [(k, v)]

/-! ### Selection engine (`repository.ts` lines 148–244) -/

/-- `record.healthcheck_url?.trim()` truthiness. -/
def urlActive (r : RecRow) : Bool :=
  match r.healthcheck_url with
  | none => false
  | some u => !(trimStr u == "")

/-- `repository.ts` `filterHealthy` (lines 227–233): drop unhealthy rows with
an active URL, but fail open if that would empty the pool (the source's
`usable` local is inlined). -/
def filterHealthy (records : List RecRow) : List RecRow :=
  if (records.filter fun r => if urlActive r then r.healthy == 1 else true).length > 0 then
    records.filter fun r => if urlActive r then r.healthy == 1 else true
  else records

/-- Weight walk of `pickWeighted`; falls back to the original list's last row
(the `?? null` arm) when the roll exceeds the total weight. -/
def pwWalk (orig : List RecRow) : List RecRow → Nat → Option RecRow
  | [], _ => orig.getLast?
  | r :: rest, roll =>
    if roll < max 1 r.weight then some r else pwWalk orig rest (roll - max 1 r.weight)

/-- `repository.ts` `pickWeighted` (lines 235–244); the `Math.random` draw is
the explicit `roll` argument (the source rolls `⌊random·total⌋`, so every
reachable roll is below the total weight — the theorems hold for all rolls). -/
def pickWeighted (records : List RecRow) (roll : Nat) : Option RecRow :=
  if records.isEmpty then none else pwWalk records records roll

/-- `repository.ts` `pickRouted` (lines 208–225); `ipMatch` abstracts
`ipMatchesAnyCidr` from `net-utils.ts`, whose source is not part of the
repository snapshot — every theorem quantifies over it.  The source's locals
(`pool`, `geoMatches`, `nonGeo`) are inlined. -/
def pickRouted (ipMatch : String → String → Bool) (records : List RecRow)
    (clientIp : String) (roll : Nat) : Option RecRow :=
  if records.isEmpty then none
  else
    pickWeighted
      (filterHealthy
        (if clientIp ≠ "" then
          if (records.filter fun r =>
              !(trimStr r.geo_cidrs == "") && ipMatch clientIp r.geo_cidrs).length > 0 then
            records.filter fun r => !(trimStr r.geo_cidrs == "") && ipMatch clientIp r.geo_cidrs
          else
            if (records.filter fun r => trimStr r.geo_cidrs == "").length > 0 then
              records.filter fun r => trimStr r.geo_cidrs == ""
            else records
        else records))
      roll

/-- `repository.ts` `qtypeToType` (lines 197–206). -/
def qtypeToType (qtype : Nat) : Option String :=
  if qtype = QTYPE_NS then some "NS"
  else if qtype = QTYPE_SOA then some "SOA"
  else if qtype = QTYPE_PTR then some "PTR"
  else if qtype = QTYPE_MX then some "MX"
  else if qtype = QTYPE_TXT then some "TXT"
  else if qtype = QTYPE_SRV then some "SRV"
  else if qtype = QTYPE_CAA then some "CAA"
  else none

/-- The `byType` map of the ANY branch: JS `Map` iteration is insertion order,
values accumulate per key. -/
def groupByType (rs : List RecRow) : List (String × List RecRow) :=
  rs.foldl
    (fun acc r =>
      if acc.any (fun p => p.1 == r.type) then
        acc.map fun p => if p.1 == r.type then (p.1, p.2 ++ [r]) else p
      else acc ++ [(r.type, [r])])
    []

/-- `repository.ts` `selectRecordsForQuery` (lines 148–195).  Each
`pickRouted` call consumes the next `rng` draw.  The source's locals
(`enabled`, `cname`, `targetType`, `candidates`) are inlined. -/
def selectRecordsForQuery (ipMatch : String → String → Bool) (records : List RecRow)
    (qtype : Nat) (clientIp : String) (rng : Nat → Nat) : List DnsRecord :=
  if (records.filter fun r => r.enabled == 1).isEmpty then []
  else if qtype = QTYPE_ANY then
    ((groupByType (records.filter fun r => r.enabled == 1)).foldl
      (fun st p =>
        if p.1 == "A" || p.1 == "AAAA" || p.1 == "CNAME" then
          match pickRouted ipMatch p.2 clientIp (rng st.2) with
          | some picked => (st.1 ++ [toDnsRecord picked], st.2 + 1)
          | none => (st.1, st.2 + 1)
        else (st.1 ++ p.2.map toDnsRecord, st.2))
      (([] : List DnsRecord), 0)).1
  else if qtype = QTYPE_A ∨ qtype = QTYPE_AAAA ∨ qtype = QTYPE_CNAME then
    if !((records.filter fun r => r.enabled == 1).filter fun r => r.type == "CNAME").isEmpty then
      match pickRouted ipMatch
          ((records.filter fun r => r.enabled == 1).filter fun r => r.type == "CNAME")
          clientIp (rng 0) with
      | some picked => [toDnsRecord picked]
      | none => []
    else
      match pickRouted ipMatch
          ((records.filter fun r => r.enabled == 1).filter fun r =>
            r.type == (if qtype = QTYPE_A then "A"
              else if qtype = QTYPE_AAAA then "AAAA" else "CNAME"))
          clientIp (rng 0) with
      | some picked => [toDnsRecord picked]
      | none => []
  else
    match qtypeToType qtype with
    | none => []
    | some t =>
      ((records.filter fun r => r.enabled == 1).filter fun r => r.type == t).map toDnsRecord

/-! ### `repository.ts` `lookup` -/

structure LookupResult where
  zoneName : Option String
  nameExists : Bool
  records : List DnsRecord
  authorityRecords : List DnsRecord
deriving DecidableEq, Repr

/-- Cache-miss path of `lookup`: read the store, populate the cache when the
TTL is positive, select (the source's `records` local is inlined). -/
def lookupMiss (ipMatch : String → String → Bool) (db : Db) (cache : Cache)
    (cacheTtlMs : Nat) (now : Nat) (fqdn : String) (zoneName : Option String)
    (qtype : Nat) (clientIp : String) (rng : Nat → Nat) : LookupResult × Cache :=
  ({ zoneName := zoneName, nameExists := decide ((getByName db fqdn).length > 0),
     records := selectRecordsForQuery ipMatch (getByName db fqdn) qtype clientIp rng,
     authorityRecords := getAuthorityRecords db zoneName },
   if cacheTtlMs > 0 then cacheSet cache fqdn ⟨now + cacheTtlMs, getByName db fqdn⟩
   else cache)

/-- `repository.ts` `lookup` (lines 104–135).  `none` models a thrown
exception (`normalizeFqdn` of a blank name), which the caller catches as
SERVFAIL.  The zone and the authority rows are always re-read from the store
(`zoneName` is computed before the cache branch); only the per-name record
rows come from the cache on a hit. -/
def lookup (ipMatch : String → String → Bool) (db : Db) (cache : Cache)
    (cacheTtlMs : Nat) (now : Nat) (name : String) (qtype : Nat) (clientIp : String)
    (rng : Nat → Nat) : Option (LookupResult × Cache) :=
  match normalizeFqdn name with
  | none => none
  | some fqdn =>
    match normalizeDomain fqdn with
    | none => none
    | some bare =>
      match cacheGet cache fqdn with
      | some entry =>
        if now < entry.expiresAt then
          some ({ zoneName := resolveZoneName db.domains bare,
                  nameExists := decide (entry.records.length > 0),
                  records := selectRecordsForQuery ipMatch entry.records qtype clientIp rng,
                  authorityRecords :=
                    getAuthorityRecords db (resolveZoneName db.domains bare) }, cache)
        else
          some (lookupMiss ipMatch db cache cacheTtlMs now fqdn
            (resolveZoneName db.domains bare) qtype clientIp rng)
      | none =>
        some (lookupMiss ipMatch db cache cacheTtlMs now fqdn
          (resolveZoneName db.domains bare) qtype clientIp rng)

/-! ### Response synthesis (`dns-codec.ts` `buildSuccessResponse`) -/

/-- `dns-codec.ts` `shouldAnswerForType` (lines 329–342). -/
def shouldAnswerForType (qtype : Nat) (record : DnsRecord) : Bool :=
  if qtype = QTYPE_ANY then true
  else if qtype = QTYPE_A then record.type == "A" || record.type == "CNAME"
  else if qtype = QTYPE_AAAA then record.type == "AAAA" || record.type == "CNAME"
  else if qtype = QTYPE_CNAME then record.type == "CNAME"
  else if qtype = QTYPE_NS then record.type == "NS"
  else if qtype = QTYPE_SOA then record.type == "SOA"
  else if qtype = QTYPE_MX then record.type == "MX"
  else if qtype = QTYPE_TXT then record.type == "TXT"
  else if qtype = QTYPE_CAA then record.type == "CAA"
  else if qtype = QTYPE_SRV then record.type == "SRV"
  else if qtype = QTYPE_PTR then record.type == "PTR"
  else false

/-- Structured content of the reply datagram: the header numbers, the flag
word, and the answer/authority record lists with their owner names. -/
structure DnsResponse where
  id : Nat
  flags : Nat
  qdcount : Nat
  ancount : Nat
  nscount : Nat
  arcount : Nat
  answers : List DnsRecord
  authority : List DnsRecord
  ownerName : String
  authorityName : String
deriving DecidableEq, Repr

/-- `dns-codec.ts` `buildSuccessResponse` (lines 355–419), modelled up to the
structured reply content; the flag word `(1<<15)|(0<<11)|(1<<10)|(0<<9)|
(rd<<8)|(0<<7)|(rcode&0x0f)` is the sum below because the fields do not
overlap, and the source's locals (`answers`, `rcode`, `authority`, `rd`,
`respFlags`) are inlined.  The per-record rdata byte serialisation is not
needed by any claim and is not modelled. -/
def buildSuccessResponse (context : QueryContext) (records authorityRecords : List DnsRecord)
    (zoneExists : Bool) (zoneName : Option String) : DnsResponse :=
  { id := context.id,
    flags := 2 ^ 15 + 2 ^ 10 + context.flags / 2 ^ 8 % 2 * 2 ^ 8 +
      (if zoneExists then 0 else 3) % 16,
    qdcount := 1,
    ancount := (records.filter (shouldAnswerForType context.qtype)).length,
    nscount :=
      (if (records.filter (shouldAnswerForType context.qtype)).length = 0 then
        authorityRecords.filter fun r => r.type == "SOA" || r.type == "NS"
      else []).length,
    arcount := 0,
    answers := records.filter (shouldAnswerForType context.qtype),
    authority :=
      if (records.filter (shouldAnswerForType context.qtype)).length = 0 then
        authorityRecords.filter fun r => r.type == "SOA" || r.type == "NS"
      else [],
    ownerName := context.qname,
    authorityName := zoneName.getD context.qname }

/-- Success path of the UDP handler in `server.ts`: lookup then response
build, with `zoneExists := Boolean(lookup.zoneName)`. -/
def handleQuery (ipMatch : String → String → Bool) (db : Db) (cache : Cache)
    (cacheTtlMs : Nat) (now : Nat) (context : QueryContext) (clientIp : String)
    (rng : Nat → Nat) : Option (DnsResponse × Cache) :=
  (lookup ipMatch db cache cacheTtlMs now context.qname context.qtype clientIp rng).map
    fun rc =>
      (buildSuccessResponse context rc.1.records rc.1.authorityRecords
        rc.1.zoneName.isSome rc.1.zoneName, rc.2)

/-! ### DDNS path (`api-server.ts`) -/

/-- `api-server.ts` `createDdnsTokenStmt` (lines 137–145): the row inserted by
`createDdnsTokenStmt.run(user.id, domainId, fqdn, token, tokenHash(token),
ttl)`.  `hashFn` abstracts `tokenHash` (SHA-256 hex); `enabled` defaults
to 1.  Note the cleartext `token` itself goes into the `token_value` column. -/
def createDdnsTokenRow (hashFn : String → String) (uid did : Nat) (fqdn tok : String)
    (ttl rowId : Nat) : DdnsTokenRow :=
  { id := rowId, user_id := uid, domain_id := did, fqdn := fqdn,
    token_value := tok, token_hash := hashFn tok, ttl := ttl, enabled := 1 }

def createDdnsToken (hashFn : String → String) (db : Db) (uid did : Nat)
    (fqdn tok : String) (ttl rowId : Nat) : Db :=
  { db with ddnsTokens := db.ddnsTokens ++ [createDdnsTokenRow hashFn uid did fqdn tok ttl rowId] }

/-- `api-server.ts` `findRecordValueStmt`: first A row for
`(domain_id, fqdn)` (`LIMIT 1`, table order). -/
def findRecordValue (db : Db) (did : Nat) (fqdn : String) : Option String :=
  ((db.records.filter fun r =>
    r.domain_id == some did && r.fqdn == fqdn && r.type == "A").head?).map RecRow.value

/-- `api-server.ts` `deleteRecordsByNameTypeStmt`. -/
def deleteRecordsByNameType (db : Db) (did : Nat) (fqdn t : String) : Db :=
  { db with
    records := db.records.filter fun r =>
      !(r.domain_id == some did && r.fqdn == fqdn && r.type == t) }

def nextRecordId (db : Db) : Nat := (db.records.map RecRow.id).foldr max 0 + 1

/-- The A row inserted by the DDNS path:
`insertRecordStmt.run(ddns.domain_id, ddns.fqdn, "A", ddns.ttl, ip, 100, "",
1, null)`; `healthy` defaults to 1.  (The statement's upsert arm cannot fire
here: all A rows for the name were just deleted.) -/
def insertRecordDdns (db : Db) (did : Nat) (fqdn : String) (ttl : Nat) (ip : String) : Db :=
  { db with
    records := db.records ++
      [{ id := nextRecordId db, domain_id := some did, fqdn := fqdn, type := "A",
         ttl := ttl, value := ip, weight := 100, geo_cidrs := "", enabled := 1,
         healthcheck_url := none, healthy := 1, last_health_check_at := none,
         last_health_error := none }] }

/-- `api-server.ts` `insertDdnsUpdateStmt`. -/
def insertDdnsUpdate (db : Db) (row : DdnsUpdateRow) : Db :=
  { db with ddnsUpdates := db.ddnsUpdates ++ [row] }

/-- The three write statements of `updateDynamicDns` in source order.  In
`api-server.ts` they are executed as three independent auto-committing
statements — there is NO `db.transaction(...)` wrapper around them. -/
def ddnsWriteStatements (ddns : DdnsTokenRow) (ip ua : String) (current : Option String) :
    List (Db → Db) :=
  [fun db => deleteRecordsByNameType db ddns.domain_id ddns.fqdn "A",
   fun db => insertRecordDdns db ddns.domain_id ddns.fqdn ddns.ttl ip,
   fun db => insertDdnsUpdate db
     { ddns_token_id := ddns.id, ip := ip, previous_value := current,
       new_value := ip, user_agent := ua }]

/-- Execute a prefix of a statement list.  Because no transaction wraps the
statements, a statement that throws leaves every earlier statement committed:
`failAfter` is the number of statements that succeed (`failAfter ≥ length`
means the whole sequence succeeds, `Bool` is `false` when a failure cut the
sequence short and the caller sees an error). -/
def runWithoutTransaction (db : Db) (stmts : List (Db → Db)) (failAfter : Nat) : Db × Bool :=
  match stmts, failAfter with
  | [], _ => (db, true)
  | _ :: _, 0 => (db, false)
  | s :: rest, n + 1 => runWithoutTransaction (s db) rest n

/-- `api-server.ts` `updateDynamicDns` (lines 1089–1095), success path: read
the current A value, delete all A rows for the bound name, insert the new A
row, append the audit row; returns `(previous, changed)`. -/
def updateDynamicDns (db : Db) (ddns : DdnsTokenRow) (ip ua : String) :
    Db × (Option String × Bool) :=
  let current := findRecordValue db ddns.domain_id ddns.fqdn
  let db3 := (runWithoutTransaction db (ddnsWriteStatements ddns ip ua current) 3).1
  (db3, (current, decide (current ≠ some ip)))

/-! ### Health checker and whole-system state -/

/-- The DNS-server process state: the shared SQLite store plus the in-memory
lookup cache owned by `DnsRepository`. -/
structure SystemState where
  db : Db
  cache : Cache
deriving DecidableEq, Repr

/-- System-level effect of one DDNS update: `api-server.ts` holds no
reference to the `DnsRepository` cache (it opens the SQLite file directly),
so only the store changes. -/
def ddnsUpdateSystem (st : SystemState) (ddns : DdnsTokenRow) (ip ua : String) :
    SystemState × (Option String × Bool) :=
  let r := updateDynamicDns st.db ddns ip ua
  ({ db := r.1, cache := st.cache }, r.2)

/-- Outcome classification of one probe (`runHealthChecks` body): healthy iff
the HTTP status is < 500; a transport failure/timeout (`none`) is unhealthy. -/
def classifyProbe (status : Option Nat) : Nat × Option String :=
  match status with
  | some s => if s < 500 then (1, none) else (0, some ("status:" ++ toString s))
  | none => (0, some "health-check failed")

/-- `repository.ts` `runHealthChecks` (lines 253–272): enumerate the targets
once, then for each target write the probe outcome and clear the whole cache
(`this.cache.clear()` runs after every `updateHealthStmt.run`).  `probe`
abstracts the `fetch` result per record id. -/
def runHealthChecks (st : SystemState) (probe : Nat → Option Nat) (now : Nat) : SystemState :=
  (healthTargets st.db).foldl
    (fun acc t =>
      { db := updateHealth acc.db (classifyProbe (probe t.1)).1 (classifyProbe (probe t.1)).2
          now t.1,
        cache := [] })
    st

/-- Spec-side rejection predicate (refinement comparison for the parser):
"length < 12; QDCOUNT ≠ 1; QR bit set; malformed name; question section does
not fit", with "malformed name" read as `decodeName` throwing — pointer out
of the buffer and exceeding the label-hop guard are among its error causes. -/
def rejectsSpec (q : List Nat) : Prop :=
  q.length < 12 ∨ u16at q 4 ≠ 1 ∨ u16at q 2 / 2 ^ 15 % 2 = 1 ∨
  (∃ e, decodeName q 12 = .error e) ∨
  ∃ p, decodeName q 12 = .ok p ∧ p.2 + 4 > q.length

/-- Store invariant (spec §3): every record row lies inside an existing zone —
its bare name stands in the resolver's match relation to some stored zone
name — and stored zone names are nonblank. -/
def DbWf (db : Db) : Prop :=
  (∀ r ∈ db.records, ∃ d ∈ db.domains, zoneMatches (dropLastStr r.fqdn) d.name = true) ∧
  ∀ d ∈ db.domains, trimStr d.name ≠ ""

/-- Cache consistency: cached row lists hold current store rows for the cached
key (the repository only ever populates the cache from `getByName` results). -/
def CacheWf (db : Db) (cache : Cache) : Prop :=
  ∀ p ∈ cache, ∀ r ∈ p.2.records, r ∈ db.records ∧ r.fqdn = p.1

/-! Concrete fixtures used by witnesses and counterexamples. -/

/-- A store whose only record is a DISABLED SOA row at the apex of zone `z`. -/
def exDbDisabledSoa : Db :=
  ⟨[⟨1, "z"⟩],
   [⟨1, some 1, "z.", "SOA", 300, "ns1.z. hm.z. 1 900 300 604800 300", 100, "", 0, none, 1,
     none, none⟩],
   [], []⟩

/-- A store with one enabled A row `a.z. → 1.2.3.4` under zone `z`. -/
def exDbOneA : Db :=
  ⟨[⟨1, "z"⟩],
   [⟨1, some 1, "a.z.", "A", 60, "1.2.3.4", 100, "", 1, none, 1, none, none⟩],
   [], []⟩

/-- One enabled CNAME row for `n.z.`. -/
def exRowCname : RecRow :=
  ⟨1, some 1, "n.z.", "CNAME", 60, "t.z.", 100, "", 1, none, 1, none, none⟩

/-- A store for the DDNS scenarios: zone `z`, A row `home.z. → 1.2.3.4`, one
credential bound to `home.z.`. -/
def exDbDdns : Db :=
  ⟨[⟨1, "z"⟩],
   [⟨1, some 1, "home.z.", "A", 60, "1.2.3.4", 100, "", 1, none, 1, none, none⟩],
   [⟨1, 1, 1, "home.z.", "tok-value", "tok-hash", 60, 1⟩],
   []⟩

def exDdnsToken : DdnsTokenRow := ⟨1, 1, 1, "home.z.", "tok-value", "tok-hash", 60, 1⟩

/-- An IN-class A query for `a.z.` with the RD bit set (flags `0x0100`). -/
def exCtxC5 : QueryContext := ⟨11, 256, 1, 1, "a.z.", []⟩

/-- The reply synthesized for `exCtxC5` against `exDbOneA`: flag word
`0x8000 + 0x0400 + 0x0100 = 34048`, one answer, empty authority. -/
def exRespC5 : DnsResponse :=
  ⟨11, 34048, 1, 1, 0, 0, [⟨"A", 60, "1.2.3.4"⟩], [], "a.z.", "z."⟩

/-- The cache populated by that lookup (miss path, TTL 5000ms, now = 0). -/
def exCacheC5 : Cache :=
  [("a.z.", ⟨5000, [⟨1, some 1, "a.z.", "A", 60, "1.2.3.4", 100, "", 1, none, 1, none, none⟩]⟩)]

/-- Two stored zones, one nested in the other, for the zone-resolution
witness. -/
def exDomainsC6 : List DomainRow := [⟨1, "z"⟩, ⟨2, "a.z"⟩]

/-- A store with one enabled health-check target. -/
def exDbHealth : Db :=
  ⟨[⟨1, "z"⟩],
   [⟨1, some 1, "a.z.", "A", 60, "1.2.3.4", 100, "", 1, some "http://probe/h", 1, none, none⟩],
   [], []⟩

/-! ## Theorems -/

/-! ### ASCII string primitives (JS `toLowerCase`, `trim`, `endsWith`) -/

/-- Lift a `Char.toNat` equality to character equality. -/
theorem char_eq_of_toNat_eq {a b : Char} (h : a.toNat = b.toNat) : a = b := by
  apply Char.eq_of_val_eq
  exact UInt32.toNat.inj h

/-- `Char.ofNat` round-trips on valid (BMP, below the surrogate range) codes. -/
theorem toNat_charOfNat (n : Nat) (h : n < 55296) : (Char.ofNat n).toNat = n := by
  unfold Char.ofNat
  rw [dif_pos (Or.inl h)]
  simp [Char.ofNatAux, Char.toNat, UInt32.toNat, UInt32.ofNatCore]

/-! Lemmas about the primitives. -/

theorem lowerChar_toNat_of_upper {c : Char} (h : 65 ≤ c.toNat ∧ c.toNat ≤ 90) :
    (lowerChar c).toNat = c.toNat + 32 := by
  simp only [lowerChar, if_pos h]
  exact toNat_charOfNat _ (by omega)

theorem lowerChar_toNat_of_not_upper {c : Char} (h : ¬(65 ≤ c.toNat ∧ c.toNat ≤ 90)) :
    (lowerChar c).toNat = c.toNat := by
  simp only [lowerChar, if_neg h]

theorem lowerChar_idem (c : Char) : lowerChar (lowerChar c) = lowerChar c := by
  apply char_eq_of_toNat_eq
  by_cases h : 65 ≤ c.toNat ∧ c.toNat ≤ 90
  · have h1 := lowerChar_toNat_of_upper h
    exact lowerChar_toNat_of_not_upper (by omega)
  · have h1 := lowerChar_toNat_of_not_upper h
    exact lowerChar_toNat_of_not_upper (by omega)

theorem isWsChar_lowerChar (c : Char) : isWsChar (lowerChar c) = isWsChar c := by
  by_cases h : 65 ≤ c.toNat ∧ c.toNat ≤ 90
  · have h1 : (lowerChar c).toNat = c.toNat + 32 := lowerChar_toNat_of_upper h
    have l1 : isWsChar (lowerChar c) = false := by
      simp only [isWsChar, h1, Bool.or_eq_false_iff, decide_eq_false_iff_not]
      omega
    have l2 : isWsChar c = false := by
      simp only [isWsChar, Bool.or_eq_false_iff, decide_eq_false_iff_not]
      omega
    rw [l1, l2]
  · rw [lowerChar, if_neg h]

theorem dropWhile_head_not {p : Char → Bool} {l : List Char} {c : Char}
    (h : (l.dropWhile p).head? = some c) : p c = false := by
  induction l with
  | nil => simp [List.dropWhile] at h
  | cons a t ih =>
    rw [List.dropWhile_cons] at h
    by_cases hp : p a
    · rw [if_pos hp] at h; exact ih h
    · rw [if_neg hp] at h
      simp only [List.head?_cons, Option.some.injEq] at h
      subst h; exact Bool.eq_false_iff.mpr hp

theorem trimList_head_not {l : List Char} {c : Char}
    (h : (trimList l).head? = some c) : isWsChar c = false := by
  unfold trimList at h
  rw [List.head?_reverse] at h
  have hne : (l.dropWhile isWsChar).reverse.dropWhile isWsChar ≠ [] := by
    intro hnil; rw [hnil] at h; simp at h
  obtain ⟨t, ht⟩ :=
    List.dropWhile_suffix (l := (l.dropWhile isWsChar).reverse) isWsChar
  have h2 : ((l.dropWhile isWsChar).reverse).getLast? = some c := by
    rw [← ht, List.getLast?_append_of_ne_nil t hne]; exact h
  rw [List.getLast?_reverse] at h2
  exact dropWhile_head_not h2

theorem trimList_getLast_not {l : List Char} {c : Char}
    (h : (trimList l).getLast? = some c) : isWsChar c = false := by
  unfold trimList at h
  rw [List.getLast?_reverse] at h
  exact dropWhile_head_not h

theorem dropWhile_eq_self_of_head {p : Char → Bool} {l : List Char}
    (h : ∀ c, l.head? = some c → p c = false) : l.dropWhile p = l := by
  cases l with
  | nil => rfl
  | cons a t =>
    have := h a rfl
    rw [List.dropWhile_cons, if_neg (by simp [this])]

theorem trimList_eq_self_of_ends {l : List Char}
    (h1 : ∀ c, l.head? = some c → isWsChar c = false)
    (h2 : ∀ c, l.getLast? = some c → isWsChar c = false) :
    trimList l = l := by
  unfold trimList
  rw [dropWhile_eq_self_of_head h1]
  rw [dropWhile_eq_self_of_head (fun c hc => h2 c (by rwa [List.head?_reverse] at hc))]
  exact List.reverse_reverse l

theorem trimList_idem (l : List Char) : trimList (trimList l) = trimList l :=
  trimList_eq_self_of_ends (fun _ h => trimList_head_not h)
    (fun _ h => trimList_getLast_not h)

theorem str_ext {a b : String} (h : a.data = b.data) : a = b := by
  cases a; cases b; exact congrArg String.mk h

theorem lowerStr_data (s : String) : (lowerStr s).data = s.data.map lowerChar := rfl

theorem lowerStr_idem (s : String) : lowerStr (lowerStr s) = lowerStr s := by
  apply str_ext
  simp only [lowerStr_data, lowerStr, List.map_map]
  exact List.map_congr_left fun c _ => lowerChar_idem c

theorem trimList_map_lower (l : List Char) :
    trimList (l.map lowerChar) = (trimList l).map lowerChar := by
  have hws : (isWsChar ∘ lowerChar) = isWsChar := funext isWsChar_lowerChar
  unfold trimList
  rw [List.dropWhile_map, hws, ← List.map_reverse, List.dropWhile_map, hws,
    ← List.map_reverse]

theorem trimStr_lowerStr (s : String) : trimStr (lowerStr s) = lowerStr (trimStr s) := by
  apply str_ext
  show trimList (s.data.map lowerChar) = (trimList s.data).map lowerChar
  exact trimList_map_lower s.data

theorem trimStr_trimStr (s : String) : trimStr (trimStr s) = trimStr s := by
  apply str_ext
  exact trimList_idem s.data

theorem strEndsWith_append_dot (s : String) : strEndsWith (s ++ ".") "." = true := by
  simp only [strEndsWith, List.isSuffixOf_iff_suffix, String.data_append]
  exact List.suffix_append s.data _

theorem trimStr_append_dot_of_trimmed {t : String} (ht : trimStr t = t) :
    trimStr (t ++ ".") = t ++ "." := by
  apply str_ext
  show trimList (t ++ ".").data = (t ++ ".").data
  rw [String.data_append]
  have htd : trimList t.data = t.data := congrArg String.data ht
  apply trimList_eq_self_of_ends
  · intro c hc
    cases htl : t.data with
    | nil =>
      rw [htl, List.nil_append] at hc
      have : c = '.' := by
        simpa using hc.symm
      subst this; rfl
    | cons a rest =>
      rw [htl, List.cons_append, List.head?_cons] at hc
      have hac : a = c := by injection hc
      subst hac
      exact trimList_head_not (by rw [htd, htl]; rfl)
  · intro c hc
    rw [List.getLast?_append_of_ne_nil _ (by simp : ("." : String).data ≠ [])] at hc
    have : c = '.' := by simpa using hc.symm
    subst this; rfl

/-- The output of `normalizeFqdn` is a fixpoint: normalising it again returns
it unchanged.  This mirrors the fact that `repository.ts` `lookup` applies
`normalizeDomain` to an already-normalised FQDN. -/
theorem normalizeFqdn_idem {s f : String} (h : normalizeFqdn s = some f) :
    normalizeFqdn f = some f := by
  unfold normalizeFqdn at h ⊢
  set t := lowerStr (trimStr s) with hts
  by_cases hne : t = ""
  · rw [if_pos hne] at h; exact absurd h (by simp)
  · rw [if_neg hne] at h
    have htrim : trimStr t = t := by
      rw [hts, trimStr_lowerStr, trimStr_trimStr]
    have hlow : lowerStr t = t := by rw [hts]; exact lowerStr_idem _
    obtain rfl : (if strEndsWith t "." then t else t ++ ".") = f := by injection h
    by_cases hdot : strEndsWith t "." = true
    · rw [if_pos hdot, htrim, hlow, if_neg hne, if_pos hdot]
    · rw [if_neg hdot]
      have htrim2 : trimStr (t ++ ".") = t ++ "." := trimStr_append_dot_of_trimmed htrim
      have hlow2 : lowerStr (t ++ ".") = t ++ "." := by
        apply str_ext
        show ((t ++ ".").data).map lowerChar = (t ++ ".").data
        rw [String.data_append, List.map_append]
        have h1 : List.map lowerChar t.data = t.data := by
          have hx := congrArg String.data hlow
          rwa [lowerStr_data] at hx
        have h2 : ("." : String).data.map lowerChar = ("." : String).data := by decide
        rw [h1, h2]
      have hne2 : ¬(t ++ "." = "") := by
        intro hEq
        have hd := congrArg String.data hEq
        rw [String.data_append] at hd
        exact absurd hd (by simp)
      rw [htrim2, hlow2, if_neg hne2, if_pos (strEndsWith_append_dot t)]

theorem likeChars_percent_iff (ps : List Char) (s : List Char) :
    likeChars ('%' :: ps) s = true ↔ ∃ n, likeChars ps (s.drop n) = true := by
  rw [likeChars.eq_def]
  simp only [if_true]
  rw [List.any_eq_true]
  constructor
  · rintro ⟨n, _, hn⟩
    exact ⟨n, hn⟩
  · rintro ⟨n, hn⟩
    by_cases hns : n ≤ s.length
    · exact ⟨n, List.mem_range.mpr (by omega), hn⟩
    · refine ⟨s.length, List.mem_range.mpr (by omega), ?_⟩
      have h1 : s.drop n = [] := List.drop_eq_nil_of_le (by omega)
      have h2 : s.drop s.length = [] := List.drop_eq_nil_of_le le_rfl
      rw [h2, ← h1]
      exact hn

/-- A wildcard-free pattern matches exactly the strings equal to it modulo
ASCII case. -/
theorem likeChars_noWild_iff (ps s : List Char)
    (hps : ∀ c ∈ ps, c ≠ '%' ∧ c ≠ '_') :
    likeChars ps s = true ↔ ps.map lowerChar = s.map lowerChar := by
  induction ps generalizing s with
  | nil =>
    cases s with
    | nil => simp [likeChars]
    | cons c t => simp [likeChars]
  | cons p pt ih =>
    have hp := hps p (by simp)
    cases s with
    | nil =>
      rw [likeChars.eq_2, if_neg hp.1]
      simp
    | cons c t =>
      rw [likeChars.eq_3, if_neg hp.1, if_neg hp.2]
      simp only [Bool.and_eq_true, decide_eq_true_eq, List.map_cons, List.cons.injEq]
      constructor
      · rintro ⟨h1, h2⟩
        exact ⟨h1, (ih t (fun x hx => hps x (by simp [hx]))).mp h2⟩
      · rintro ⟨h1, h2⟩
        exact ⟨h1, (ih t (fun x hx => hps x (by simp [hx]))).mpr h2⟩

/-- `s LIKE '%.' || z` is exactly "`'.' ++ z` is a suffix of `s`" when `z` is
wildcard-free and both sides are already lower-case (which is how
`repository.ts` uses it: both the queried name and zone names are
lower-cased before reaching SQLite). -/
theorem sqlLike_suffix_iff {s z : String}
    (hz : ∀ c ∈ z.data, c ≠ '%' ∧ c ≠ '_')
    (hls : lowerStr s = s) (hlz : lowerStr z = z) :
    sqlLike s ("%." ++ z) = true ↔ ('.' :: z.data) <:+ s.data := by
  have hdata : ("%." ++ z).data = '%' :: '.' :: z.data := by
    rw [String.data_append]; rfl
  have hlowz : z.data.map lowerChar = z.data := by
    have := congrArg String.data hlz
    rwa [lowerStr_data] at this
  have hlows : s.data.map lowerChar = s.data := by
    have := congrArg String.data hls
    rwa [lowerStr_data] at this
  unfold sqlLike
  rw [hdata, likeChars_percent_iff]
  have hnw : ∀ c ∈ '.' :: z.data, c ≠ '%' ∧ c ≠ '_' := by
    intro c hc
    rcases List.mem_cons.mp hc with rfl | hc
    · exact ⟨by decide, by decide⟩
    · exact hz c hc
  constructor
  · rintro ⟨n, hn⟩
    have hthis := (likeChars_noWild_iff _ _ hnw).mp hn
    rw [List.map_cons, hlowz, List.map_drop, hlows] at hthis
    have hdot : lowerChar '.' = '.' := by decide
    rw [hdot] at hthis
    exact hthis ▸ List.drop_suffix n s.data
  · intro hsuf
    obtain ⟨t, ht⟩ := hsuf
    refine ⟨t.length, ?_⟩
    apply (likeChars_noWild_iff _ _ hnw).mpr
    rw [List.map_cons, hlowz, List.map_drop, hlows]
    have hdot : lowerChar '.' = '.' := by decide
    rw [hdot, ← ht, List.drop_left]

theorem decodeName_ok_shape {bytes : List Nat} {start : Nat} {qn : String} {nx : Nat}
    (h : decodeName bytes start = .ok (qn, nx)) :
    qn = "." ∨ ∃ s : String, qn = s ++ "." := by
  unfold decodeName at h
  cases haux : decodeNameAux bytes 200 start false 0 [] with
  | error e => rw [haux] at h; exact absurd h (by simp)
  | ok p =>
    rw [haux] at h
    obtain ⟨labels, next⟩ := p
    simp only [Except.ok.injEq, Prod.mk.injEq] at h
    obtain ⟨h1, _⟩ := h
    by_cases hl : labels.isEmpty
    · left; rw [← h1, if_pos hl]
    · right; exact ⟨_, by rw [← h1, if_neg hl]⟩

/-! ### C3 — DDNS credential storage -/

/-- C3 counterexample: creating a DDNS credential writes the cleartext secret
itself into the `token_value` column (`createDdnsTokenStmt.run(user.id,
domainId, fqdn, token, tokenHash(token), ttl)`), so the durable store does not
hold only the SHA-256 hash, and the cleartext is trivially re-derivable. -/
theorem c3_cleartext_stored :
    (createDdnsTokenRow (fun _ => "hash") 1 1 "home.z." "ddns_secret_1" 60 7).token_value
      = "ddns_secret_1" := rfl

/-- C3 (amended): every created DDNS credential row stores the SHA-256 hash of
the secret in `token_hash` AND the cleartext secret in `token_value`. -/
theorem c3_token_row_contents (hashFn : String → String) (uid did : Nat)
    (fqdn tok : String) (ttl rowId : Nat) :
    (createDdnsTokenRow hashFn uid did fqdn tok ttl rowId).token_hash = hashFn tok ∧
    (createDdnsTokenRow hashFn uid did fqdn tok ttl rowId).token_value = tok :=
  ⟨rfl, rfl⟩

/-! ### C9 — canonical form of the parsed qname -/

/-- C9 counterexample: a query for the single label `A` (byte 0x41) parses to
qname `"A."` — upper case is preserved, so the query context does NOT carry a
lower-cased name (lower-casing happens later, in `normalizeFqdn` inside
`repository.lookup`). -/
theorem c9_counterexample :
    (parseQuery [0, 1, 0, 0, 0, 1, 0, 0, 0, 0, 0, 0, 1, 65, 0, 0, 1, 0, 1]).map
        QueryContext.qname = some "A." ∧
      lowerStr "A." ≠ "A." := by
  constructor
  · decide
  · decide

/-- C9 (amended): the decoded qname is trailing-dot canonical — it always ends
with `'.'` — but its letter case is preserved as received. -/
theorem c9_qname_trailing_dot (q : List Nat) (ctx : QueryContext)
    (h : parseQuery q = some ctx) : ctx.qname.data.getLast? = some '.' := by
  unfold parseQuery at h
  split at h
  · exact absurd h (by simp)
  · split at h
    · exact absurd h (by simp)
    · split at h
      · exact absurd h (by simp)
      · cases hd : decodeName q 12 with
        | error e => rw [hd] at h; exact absurd h (by simp)
        | ok p =>
          obtain ⟨qn, nx⟩ := p
          rw [hd] at h
          simp only [] at h
          split at h
          · exact absurd h (by simp)
          · have hctx : ctx.qname = qn := by
              have hinj := Option.some.inj h
              rw [← hinj]
            rw [hctx]
            rcases decodeName_ok_shape hd with hq | ⟨s, hq⟩
            · rw [hq]; decide
            · rw [hq, String.data_append,
                List.getLast?_append_of_ne_nil _ (by decide : ("." : String).data ≠ [])]
              decide

/-- Closed instance of `c9_qname_trailing_dot` at a concrete accepted query. -/
theorem c9_qname_trailing_dot_witness :
    parseQuery [0, 1, 0, 0, 0, 1, 0, 0, 0, 0, 0, 0, 1, 65, 0, 0, 1, 0, 1] =
        some ⟨1, 0, 1, 1, "A.", [1, 65, 0, 0, 1, 0, 1]⟩ ∧
      (QueryContext.mk 1 0 1 1 "A." [1, 65, 0, 0, 1, 0, 1]).qname.data.getLast? = some '.' :=
  ⟨by decide,
   c9_qname_trailing_dot [0, 1, 0, 0, 0, 1, 0, 0, 0, 0, 0, 0, 1, 65, 0, 0, 1, 0, 1]
     (QueryContext.mk 1 0 1 1 "A." [1, 65, 0, 0, 1, 0, 1]) (by decide)⟩

/-! ### C4 — parser totality and rejection conditions -/

/-- C4: `parseQuery` is total on every byte list (it never throws — rejection
is the `none` value), and it rejects exactly under the spec's conditions:
datagram shorter than 12 bytes, QDCOUNT ≠ 1, QR bit set, malformed question
name (`decodeName` throws; compression pointers outside the buffer and
exceeding the label-hop guard are among its error causes), or the 4 bytes of
qtype/qclass not fitting after the name. -/
theorem c4_parseQuery_rejects_iff (q : List Nat) :
    parseQuery q = none ↔ rejectsSpec q := by
  unfold parseQuery rejectsSpec
  by_cases h1 : q.length < 12
  · rw [if_pos h1]
    exact ⟨fun _ => Or.inl h1, fun _ => rfl⟩
  · rw [if_neg h1]
    by_cases h2 : u16at q 4 ≠ 1
    · rw [if_pos h2]
      exact ⟨fun _ => Or.inr (Or.inl h2), fun _ => rfl⟩
    · rw [if_neg h2]
      by_cases h3 : u16at q 2 / 2 ^ 15 % 2 ≠ 0
      · rw [if_pos h3]
        exact ⟨fun _ => Or.inr (Or.inr (Or.inl (by omega))), fun _ => rfl⟩
      · rw [if_neg h3]
        cases hd : decodeName q 12 with
        | error e =>
          simp only []
          constructor
          · intro _
            exact Or.inr (Or.inr (Or.inr (Or.inl ⟨e, rfl⟩)))
          · intro _
            trivial
        | ok p =>
          obtain ⟨qn, nx⟩ := p
          simp only []
          by_cases h4 : nx + 4 > q.length
          · rw [if_pos h4]
            constructor
            · intro _
              exact Or.inr (Or.inr (Or.inr (Or.inr ⟨(qn, nx), rfl, h4⟩)))
            · intro _
              rfl
          · rw [if_neg h4]
            constructor
            · intro hcontra
              exact absurd hcontra (by simp)
            · rintro (hc | hc | hc | ⟨e, he⟩ | ⟨p', hp', hlen⟩)
              · exact absurd hc h1
              · exact absurd hc h2
              · omega
              · exact absurd he (by simp)
              · have hpe : (qn, nx) = p' := Except.ok.inj hp'
                rw [← hpe] at hlen
                omega

/-! ### Selection-engine lemmas -/

theorem pwWalk_mem {orig l : List RecRow} {roll : Nat} {r : RecRow}
    (h : pwWalk orig l roll = some r) : r ∈ orig ∨ r ∈ l := by
  induction l generalizing roll with
  | nil =>
    left
    rw [pwWalk] at h
    exact List.mem_of_mem_getLast? h
  | cons a t ih =>
    rw [pwWalk] at h
    split at h
    · right
      obtain rfl := Option.some.inj h
      exact List.mem_cons_self a t
    · rcases ih h with h1 | h2
      · left; exact h1
      · right; exact List.mem_cons_of_mem _ h2

theorem pwWalk_isSome {orig : List RecRow} (horig : orig ≠ []) (l : List RecRow) (roll : Nat) :
    ∃ r, pwWalk orig l roll = some r := by
  induction l generalizing roll with
  | nil =>
    rw [pwWalk]
    obtain ⟨a, t, rfl⟩ := List.exists_cons_of_ne_nil horig
    exact ⟨(a :: t).getLast (by simp), List.getLast?_eq_getLast _ _⟩
  | cons a t ih =>
    rw [pwWalk]
    split
    · exact ⟨a, rfl⟩
    · exact ih _

theorem pickWeighted_mem {l : List RecRow} {roll : Nat} {r : RecRow}
    (h : pickWeighted l roll = some r) : r ∈ l := by
  unfold pickWeighted at h
  split at h
  · exact absurd h (by simp)
  · rcases pwWalk_mem h with h1 | h2 <;> exact ‹_›

theorem pickWeighted_isSome {l : List RecRow} (hl : l ≠ []) (roll : Nat) :
    ∃ r, pickWeighted l roll = some r := by
  unfold pickWeighted
  rw [if_neg (by simpa using hl)]
  exact pwWalk_isSome hl l roll

theorem filterHealthy_subset {l : List RecRow} : ∀ r ∈ filterHealthy l, r ∈ l := by
  intro r hr
  unfold filterHealthy at hr
  split at hr
  · exact (List.mem_filter.mp hr).1
  · exact hr

theorem filterHealthy_ne_nil {l : List RecRow} (hl : l ≠ []) : filterHealthy l ≠ [] := by
  unfold filterHealthy
  split
  · intro hc
    rename_i hlen
    rw [hc] at hlen
    simp at hlen
  · exact hl

theorem pickRouted_mem {ipMatch : String → String → Bool} {records : List RecRow}
    {clientIp : String} {roll : Nat} {r : RecRow}
    (h : pickRouted ipMatch records clientIp roll = some r) : r ∈ records := by
  unfold pickRouted at h
  split at h
  · exact absurd h (by simp)
  · have hm := pickWeighted_mem h
    have hp := filterHealthy_subset _ hm
    clear h hm
    split at hp
    · split at hp
      · exact (List.mem_filter.mp hp).1
      · split at hp
        · exact (List.mem_filter.mp hp).1
        · exact hp
    · exact hp

theorem pickRouted_isSome {ipMatch : String → String → Bool} {records : List RecRow}
    (clientIp : String) (roll : Nat) (hr : records ≠ []) :
    ∃ r, pickRouted ipMatch records clientIp roll = some r ∧ r ∈ records := by
  unfold pickRouted
  rw [if_neg (by simpa using hr)]
  have hpool :
      ∀ pool : List RecRow, pool ≠ [] →
        (∃ r, pickWeighted (filterHealthy pool) roll = some r) :=
    fun pool hp => pickWeighted_isSome (filterHealthy_ne_nil hp) roll
  split
  · split
    · rename_i hg
      obtain ⟨r, hr2⟩ := hpool
        (records.filter fun r => !(trimStr r.geo_cidrs == "") && ipMatch clientIp r.geo_cidrs)
        (by intro hc; rw [hc] at hg; simp at hg)
      refine ⟨r, hr2, ?_⟩
      exact (List.mem_filter.mp (filterHealthy_subset _ (pickWeighted_mem hr2))).1
    · split
      · rename_i hg
        obtain ⟨r, hr2⟩ := hpool
          (records.filter fun r => trimStr r.geo_cidrs == "")
          (by intro hc; rw [hc] at hg; simp at hg)
        refine ⟨r, hr2, ?_⟩
        exact (List.mem_filter.mp (filterHealthy_subset _ (pickWeighted_mem hr2))).1
      · obtain ⟨r, hr2⟩ := hpool _ hr
        exact ⟨r, hr2, filterHealthy_subset _ (pickWeighted_mem hr2)⟩
  · obtain ⟨r, hr2⟩ := hpool _ hr
    exact ⟨r, hr2, filterHealthy_subset _ (pickWeighted_mem hr2)⟩

theorem foldl_group_invariant (P : RecRow → Prop) :
    ∀ (rs : List RecRow) (acc : List (String × List RecRow)),
      (∀ p ∈ acc, ∀ r ∈ p.2, P r) → (∀ r ∈ rs, P r) →
      ∀ p ∈ rs.foldl
        (fun acc r =>
          if acc.any (fun q => q.1 == r.type) then
            acc.map fun q => if q.1 == r.type then (q.1, q.2 ++ [r]) else q
          else acc ++ [(r.type, [r])]) acc,
        ∀ r ∈ p.2, P r := by
  intro rs
  induction rs with
  | nil => intro acc hacc _ p hp r hr; exact hacc p hp r hr
  | cons a t ih =>
    intro acc hacc hall
    rw [List.foldl_cons]
    apply ih
    · intro p hp r hr
      by_cases hany : acc.any (fun q => q.1 == a.type)
      · rw [if_pos hany] at hp
        obtain ⟨q, hq, hfq⟩ := List.mem_map.mp hp
        by_cases hqt : q.1 == a.type
        · rw [if_pos hqt] at hfq
          rw [← hfq] at hr
          rcases List.mem_append.mp hr with h1 | h2
          · exact hacc q hq r h1
          · rw [List.mem_singleton] at h2
            subst h2
            exact hall _ (by simp)
        · rw [if_neg hqt] at hfq
          rw [← hfq] at hr
          exact hacc q hq r hr
      · rw [if_neg hany] at hp
        rcases List.mem_append.mp hp with h1 | h2
        · exact hacc p h1 r hr
        · rw [List.mem_singleton] at h2
          subst h2
          rw [List.mem_singleton] at hr
          subst hr
          exact hall _ (by simp)
    · intro r hr
      exact hall r (by simp [hr])

theorem groupByType_mem {rs : List RecRow} {p : String × List RecRow}
    (hp : p ∈ groupByType rs) : ∀ r ∈ p.2, r ∈ rs :=
  foldl_group_invariant (fun r => r ∈ rs) rs [] (by simp) (fun _ h => h) p hp

theorem anyFold_invariant (ipMatch : String → String → Bool) (clientIp : String)
    (rng : Nat → Nat) (P : RecRow → Prop) :
    ∀ (groups : List (String × List RecRow)) (st : List DnsRecord × Nat),
      (∀ d ∈ st.1, ∃ s, P s ∧ d = toDnsRecord s) →
      (∀ p ∈ groups, ∀ r ∈ p.2, P r) →
      ∀ d ∈ (groups.foldl
        (fun st p =>
          if p.1 == "A" || p.1 == "AAAA" || p.1 == "CNAME" then
            match pickRouted ipMatch p.2 clientIp (rng st.2) with
            | some picked => (st.1 ++ [toDnsRecord picked], st.2 + 1)
            | none => (st.1, st.2 + 1)
          else (st.1 ++ p.2.map toDnsRecord, st.2)) st).1,
      ∃ s, P s ∧ d = toDnsRecord s := by
  intro groups
  induction groups with
  | nil => intro st hst _ d hd; exact hst d hd
  | cons g gs ih =>
    intro st hst hgr
    rw [List.foldl_cons]
    apply ih
    · by_cases haddr : g.1 == "A" || g.1 == "AAAA" || g.1 == "CNAME"
      · rw [if_pos haddr]
        cases hpick : pickRouted ipMatch g.2 clientIp (rng st.2) with
        | some picked =>
          intro d hd
          rcases List.mem_append.mp hd with h1 | h2
          · exact hst d h1
          · rw [List.mem_singleton] at h2
            subst h2
            exact ⟨picked, hgr g (by simp) picked (pickRouted_mem hpick), rfl⟩
        | none =>
          intro d hd
          exact hst d hd
      · rw [if_neg haddr]
        intro d hd
        rcases List.mem_append.mp hd with h1 | h2
        · exact hst d h1
        · obtain ⟨s, hs, rfl⟩ := List.mem_map.mp h2
          exact ⟨s, hgr g (by simp) s hs, rfl⟩
    · intro p hp r hr
      exact hgr p (by simp [hp]) r hr

/-- Every row the selection engine emits is the projection of an enabled input
row (shared soundness lemma). -/
theorem selectRecordsForQuery_sound (ipMatch : String → String → Bool)
    (records : List RecRow) (qtype : Nat) (clientIp : String) (rng : Nat → Nat) :
    ∀ d ∈ selectRecordsForQuery ipMatch records qtype clientIp rng,
      ∃ s, s ∈ records ∧ s.enabled = 1 ∧ d = toDnsRecord s := by
  intro d hd
  unfold selectRecordsForQuery at hd
  have henab : ∀ s, s ∈ records.filter (fun r => r.enabled == 1) →
      s ∈ records ∧ s.enabled = 1 := by
    intro s hs
    have := List.mem_filter.mp hs
    exact ⟨this.1, by simpa using this.2⟩
  split at hd
  · exact absurd hd (by simp)
  · split at hd
    · obtain ⟨s, hs, rfl⟩ :=
        anyFold_invariant ipMatch clientIp rng
          (fun r => r ∈ records.filter (fun r => r.enabled == 1))
          (groupByType (records.filter (fun r => r.enabled == 1))) ([], 0)
          (by simp) (fun p hp r hr => groupByType_mem hp r hr) d hd
      exact ⟨s, (henab s hs).1, (henab s hs).2, rfl⟩
    · split at hd
      · split at hd
        · cases hpick : pickRouted ipMatch
            ((records.filter fun r => r.enabled == 1).filter fun r => r.type == "CNAME")
            clientIp (rng 0) with
          | some picked =>
            rw [hpick] at hd
            rw [show (match some picked with
                | some p => [toDnsRecord p]
                | none => ([] : List DnsRecord)) = [toDnsRecord picked] from rfl] at hd
            rw [List.mem_singleton] at hd
            subst hd
            have hm := pickRouted_mem hpick
            have := List.mem_filter.mp hm
            exact ⟨picked, (henab _ this.1).1, (henab _ this.1).2, rfl⟩
          | none =>
            rw [hpick] at hd
            exact absurd hd (by simp)
        · cases hpick : pickRouted ipMatch
            ((records.filter fun r => r.enabled == 1).filter fun r =>
              r.type == (if qtype = QTYPE_A then "A"
                else if qtype = QTYPE_AAAA then "AAAA" else "CNAME"))
            clientIp (rng 0) with
          | some picked =>
            rw [hpick] at hd
            rw [show (match some picked with
                | some p => [toDnsRecord p]
                | none => ([] : List DnsRecord)) = [toDnsRecord picked] from rfl] at hd
            rw [List.mem_singleton] at hd
            subst hd
            have hm := pickRouted_mem hpick
            have := List.mem_filter.mp hm
            exact ⟨picked, (henab _ this.1).1, (henab _ this.1).2, rfl⟩
          | none =>
            rw [hpick] at hd
            exact absurd hd (by simp)
      · split at hd
        · exact absurd hd (by simp)
        · obtain ⟨s, hs, rfl⟩ := List.mem_map.mp hd
          have := List.mem_filter.mp hs
          exact ⟨s, (henab _ this.1).1, (henab _ this.1).2, rfl⟩

/-! ### C7 — selection-engine dispatch -/

/-- C7: dropping disabled rows first, (i) every emitted row is the projection
of an enabled input row; (ii) for qtype A/AAAA/CNAME, if any enabled CNAME row
exists the engine emits exactly one CNAME row; (iii) otherwise for those
qtypes it emits at most one row, of the exact requested type; (iv) for every
other supported qtype (NS/SOA/PTR/MX/TXT/SRV/CAA, i.e. `qtypeToType` is
`some`; ANY has its own per-type dispatch) it emits exactly the enabled rows
of that exact type. -/
theorem c7_selection_dispatch (ipMatch : String → String → Bool)
    (records : List RecRow) (qtype : Nat) (clientIp : String) (rng : Nat → Nat) :
    (∀ d ∈ selectRecordsForQuery ipMatch records qtype clientIp rng,
        ∃ s, s ∈ records ∧ s.enabled = 1 ∧ d = toDnsRecord s) ∧
      ((qtype = QTYPE_A ∨ qtype = QTYPE_AAAA ∨ qtype = QTYPE_CNAME) →
        ((records.filter fun r => r.enabled == 1).filter fun r => r.type == "CNAME") ≠ [] →
        ∃ s, selectRecordsForQuery ipMatch records qtype clientIp rng = [toDnsRecord s] ∧
          s.type = "CNAME") ∧
      ((qtype = QTYPE_A ∨ qtype = QTYPE_AAAA ∨ qtype = QTYPE_CNAME) →
        ((records.filter fun r => r.enabled == 1).filter fun r => r.type == "CNAME") = [] →
        (selectRecordsForQuery ipMatch records qtype clientIp rng).length ≤ 1 ∧
          ∀ d ∈ selectRecordsForQuery ipMatch records qtype clientIp rng,
            d.type = (if qtype = QTYPE_A then "A"
              else if qtype = QTYPE_AAAA then "AAAA" else "CNAME")) ∧
      ∀ t : String, qtypeToType qtype = some t →
        ∀ d : DnsRecord,
          d ∈ selectRecordsForQuery ipMatch records qtype clientIp rng ↔
            ∃ s, s ∈ records ∧ s.enabled = 1 ∧ s.type = t ∧ d = toDnsRecord s := by
  refine ⟨selectRecordsForQuery_sound ipMatch records qtype clientIp rng, ?_, ?_, ?_⟩
  · intro hq hcn
    unfold selectRecordsForQuery
    have henil : ¬(records.filter fun r => r.enabled == 1).isEmpty = true := by
      intro hc
      rw [List.isEmpty_iff] at hc
      rw [hc] at hcn
      simp at hcn
    rw [if_neg henil]
    have hnotany : ¬(qtype = QTYPE_ANY) := by
      rcases hq with rfl | rfl | rfl <;> decide
    rw [if_neg hnotany, if_pos hq, if_pos (by simpa using hcn)]
    obtain ⟨r, hr, hm⟩ := pickRouted_isSome clientIp (rng 0) hcn
    rw [hr]
    refine ⟨r, rfl, ?_⟩
    simpa using (List.mem_filter.mp hm).2
  · intro hq hcn
    unfold selectRecordsForQuery
    have hnotany : ¬(qtype = QTYPE_ANY) := by
      rcases hq with rfl | rfl | rfl <;> decide
    by_cases henil : (records.filter fun r => r.enabled == 1).isEmpty = true
    · rw [if_pos henil]
      exact ⟨by simp, by simp⟩
    · rw [if_neg henil, if_neg hnotany, if_pos hq,
        if_neg (by simp [hcn] : ¬(!((records.filter fun r => r.enabled == 1).filter
          fun r => r.type == "CNAME").isEmpty) = true)]
      cases hpick : pickRouted ipMatch
          ((records.filter fun r => r.enabled == 1).filter fun r =>
            r.type == (if qtype = QTYPE_A then "A"
              else if qtype = QTYPE_AAAA then "AAAA" else "CNAME"))
          clientIp (rng 0) with
      | some picked =>
        refine ⟨by simp, ?_⟩
        intro d hd
        rw [show (match some picked with
            | some p => [toDnsRecord p]
            | none => ([] : List DnsRecord)) = [toDnsRecord picked] from rfl] at hd
        rw [List.mem_singleton] at hd
        subst hd
        have := (List.mem_filter.mp (pickRouted_mem hpick)).2
        simpa using this
      | none =>
        exact ⟨by simp, by simp⟩
  · intro t ht d
    unfold selectRecordsForQuery
    have h255 : ¬(qtype = QTYPE_ANY) := by
      rintro rfl
      rw [show qtypeToType QTYPE_ANY = none from rfl] at ht
      exact absurd ht (by simp)
    have h1285 : ¬(qtype = QTYPE_A ∨ qtype = QTYPE_AAAA ∨ qtype = QTYPE_CNAME) := by
      rintro (rfl | rfl | rfl)
      · rw [show qtypeToType QTYPE_A = none from rfl] at ht
        exact absurd ht (by simp)
      · rw [show qtypeToType QTYPE_AAAA = none from rfl] at ht
        exact absurd ht (by simp)
      · rw [show qtypeToType QTYPE_CNAME = none from rfl] at ht
        exact absurd ht (by simp)
    by_cases henil : (records.filter fun r => r.enabled == 1).isEmpty = true
    · rw [if_pos henil]
      constructor
      · intro hdm
        exact absurd hdm (by simp)
      · rintro ⟨s, hs, hen, _, rfl⟩
        exfalso
        rw [List.isEmpty_iff] at henil
        have hmem : s ∈ records.filter (fun r => r.enabled == 1) :=
          List.mem_filter.mpr ⟨hs, by simpa using hen⟩
        rw [henil] at hmem
        exact absurd hmem (by simp)
    · rw [if_neg henil, if_neg h255, if_neg h1285, ht]
      constructor
      · intro hdm
        obtain ⟨s, hs, rfl⟩ := List.mem_map.mp hdm
        have h2 := List.mem_filter.mp hs
        have h3 := List.mem_filter.mp h2.1
        exact ⟨s, h3.1, by simpa using h3.2, by simpa using h2.2, rfl⟩
      · rintro ⟨s, hs, hen, hty, rfl⟩
        exact List.mem_map.mpr ⟨s,
          List.mem_filter.mpr ⟨List.mem_filter.mpr ⟨hs, by simpa using hen⟩,
            by simpa using hty⟩, rfl⟩

/-- Closed instance of `c7_selection_dispatch`: one enabled CNAME row, an A
query — the engine emits exactly that CNAME. -/
theorem c7_selection_dispatch_witness :
    ((1 : Nat) = QTYPE_A ∨ (1 : Nat) = QTYPE_AAAA ∨ (1 : Nat) = QTYPE_CNAME) ∧
      (([exRowCname].filter fun r => r.enabled == 1).filter
        fun r => r.type == "CNAME") ≠ [] ∧
      ∃ s, selectRecordsForQuery (fun _ _ => false) [exRowCname] 1 "" (fun _ => 0) =
          [toDnsRecord s] ∧ s.type = "CNAME" :=
  ⟨Or.inl rfl, by decide,
   (c7_selection_dispatch (fun _ _ => false) [exRowCname] 1 "" (fun _ => 0)).2.1
     (Or.inl rfl) (by decide)⟩

/-! ### Lookup characterisation (shared) -/

/-- What `lookup` returns: the zone and the authority rows are always computed
fresh from the store, and the served record rows come either from an unexpired
cache entry or from `getByName`. -/
theorem lookup_spec {ipMatch : String → String → Bool} {db : Db} {cache : Cache}
    {cacheTtlMs now : Nat} {name : String} {qtype : Nat} {clientIp : String}
    {rng : Nat → Nat} {res : LookupResult} {c2 : Cache}
    (h : lookup ipMatch db cache cacheTtlMs now name qtype clientIp rng = some (res, c2)) :
    ∃ fqdn bare, normalizeFqdn name = some fqdn ∧ normalizeDomain fqdn = some bare ∧
      res.zoneName = resolveZoneName db.domains bare ∧
      res.authorityRecords = getAuthorityRecords db (resolveZoneName db.domains bare) ∧
      ((∃ entry, cacheGet cache fqdn = some entry ∧ now < entry.expiresAt ∧
          res.records = selectRecordsForQuery ipMatch entry.records qtype clientIp rng) ∨
        res.records = selectRecordsForQuery ipMatch (getByName db fqdn) qtype clientIp rng) := by
  unfold lookup at h
  cases hn : normalizeFqdn name with
  | none => rw [hn] at h; exact absurd h (by simp)
  | some fqdn =>
    rw [hn] at h
    simp only [] at h
    cases hb : normalizeDomain fqdn with
    | none => rw [hb] at h; exact absurd h (by simp)
    | some bare =>
      rw [hb] at h
      simp only [] at h
      refine ⟨fqdn, bare, rfl, hb, ?_⟩
      cases hc : cacheGet cache fqdn with
      | some entry =>
        rw [hc] at h
        simp only [] at h
        split at h
        · rename_i hexp
          have hpair := Option.some.inj h
          have h1 := congrArg Prod.fst hpair
          simp only [] at h1
          rw [← h1]
          exact ⟨rfl, rfl, Or.inl ⟨entry, rfl, hexp, rfl⟩⟩
        · have hpair := Option.some.inj h
          have h1 := congrArg Prod.fst hpair
          simp only [] at h1
          rw [← h1]
          exact ⟨rfl, rfl, Or.inr rfl⟩
      | none =>
        rw [hc] at h
        simp only [] at h
        have hpair := Option.some.inj h
        have h1 := congrArg Prod.fst hpair
        simp only [] at h1
        rw [← h1]
        exact ⟨rfl, rfl, Or.inr rfl⟩

/-! ### C8 — disabled rows and the two response sections -/

/-- C8 counterexample: querying `a.z.` (qtype A, no rows) against a store
whose only row is a DISABLED SOA at the zone apex produces a response whose
AUTHORITY section contains that disabled row — `authorityByZoneStmt` has no
`enabled` filter, so disabled rows are NOT invisible to resolution. -/
theorem c8_counterexample :
    ((handleQuery (fun _ _ => false) exDbDisabledSoa [] 5000 0 ⟨7, 0, 1, 1, "a.z.", []⟩ ""
        fun _ => 0).map fun rc => rc.1.authority) =
        some [⟨"SOA", 300, "ns1.z. hm.z. 1 900 300 604800 300"⟩] ∧
      ∀ r ∈ exDbDisabledSoa.records, r.enabled = 0 := by
  constructor
  · decide
  · decide

/-- C8 (amended): disabled rows never appear in the ANSWER section — every
answer row is the projection of an enabled stored row (given cache
consistency) — but the authority section is read without an `enabled` filter
and can carry disabled SOA/NS rows (see the counterexample). -/
theorem c8_answers_enabled (ipMatch : String → String → Bool) (db : Db) (cache : Cache)
    (cacheTtlMs now : Nat) (ctx : QueryContext) (clientIp : String) (rng : Nat → Nat)
    (resp : DnsResponse) (cache2 : Cache)
    (hwf : CacheWf db cache)
    (h : handleQuery ipMatch db cache cacheTtlMs now ctx clientIp rng = some (resp, cache2)) :
    ∀ a ∈ resp.answers, ∃ s, s ∈ db.records ∧ s.enabled = 1 ∧ a = toDnsRecord s := by
  intro a ha
  unfold handleQuery at h
  cases hl : lookup ipMatch db cache cacheTtlMs now ctx.qname ctx.qtype clientIp rng with
  | none => rw [hl] at h; exact absurd h (by simp)
  | some rc =>
    rw [hl] at h
    obtain ⟨res, c3⟩ := rc
    have hpair := Option.some.inj h
    have h1 := congrArg Prod.fst hpair
    simp only [] at h1
    have hresp : resp = buildSuccessResponse ctx res.records res.authorityRecords
        res.zoneName.isSome res.zoneName := h1.symm
    subst hresp
    have hans : a ∈ res.records := (List.mem_filter.mp ha).1
    obtain ⟨fqdn, bare, hfq, hbare, _, _, hrec⟩ := lookup_spec hl
    rcases hrec with ⟨entry, hcg, _, hsel⟩ | hsel
    · rw [hsel] at hans
      obtain ⟨s, hs, hen, rfl⟩ :=
        selectRecordsForQuery_sound ipMatch entry.records ctx.qtype clientIp rng a hans
      obtain ⟨p, hp, hpe⟩ : ∃ p ∈ cache, cacheGet cache fqdn = some p.2 ∧ p.2 = entry := by
        unfold cacheGet at hcg
        cases hf : cache.find? (fun p => p.1 == fqdn) with
        | none => rw [hf] at hcg; exact absurd hcg (by simp)
        | some p =>
          rw [hf] at hcg
          exact ⟨p, List.mem_of_find?_eq_some hf, by unfold cacheGet; rw [hf]; rfl,
            Option.some.inj hcg⟩
      have := hwf p hp s (by rw [hpe.2]; exact hs)
      exact ⟨s, this.1, hen, rfl⟩
    · rw [hsel] at hans
      obtain ⟨s, hs, hen, rfl⟩ :=
        selectRecordsForQuery_sound ipMatch (getByName db fqdn) ctx.qtype clientIp rng a hans
      have : s ∈ db.records := by
        unfold getByName at hs
        have hperm := List.perm_insertionSort byTypeRankId
          (db.records.filter fun r => r.fqdn == fqdn)
        have := hperm.mem_iff.mp hs
        exact (List.mem_filter.mp this).1
      exact ⟨s, this, hen, rfl⟩

/-- Closed instance of `c8_answers_enabled`: querying the store with one
enabled A row produces an answer section consisting of that row. -/
theorem c8_answers_enabled_witness :
    CacheWf exDbOneA [] ∧
      handleQuery (fun _ _ => false) exDbOneA [] 5000 0 ⟨9, 0, 1, 1, "a.z.", []⟩ ""
          (fun _ => 0) =
        some (⟨9, 33792, 1, 1, 0, 0, [⟨"A", 60, "1.2.3.4"⟩], [], "a.z.", "z."⟩,
          [("a.z.", ⟨5000,
            [⟨1, some 1, "a.z.", "A", 60, "1.2.3.4", 100, "", 1, none, 1, none, none⟩]⟩)]) ∧
      ∀ a ∈ (DnsResponse.mk 9 33792 1 1 0 0 [⟨"A", 60, "1.2.3.4"⟩] [] "a.z." "z.").answers,
        ∃ s, s ∈ exDbOneA.records ∧ s.enabled = 1 ∧ a = toDnsRecord s := by
  have hwf : CacheWf exDbOneA [] := fun p hp => absurd hp (List.not_mem_nil p)
  refine ⟨hwf, by decide, ?_⟩
  exact c8_answers_enabled (fun _ _ => false) exDbOneA [] 5000 0 ⟨9, 0, 1, 1, "a.z.", []⟩ ""
    (fun _ => 0) (DnsResponse.mk 9 33792 1 1 0 0 [⟨"A", 60, "1.2.3.4"⟩] [] "a.z." "z.")
    [("a.z.", ⟨5000, [⟨1, some 1, "a.z.", "A", 60, "1.2.3.4", 100, "", 1, none, 1, none, none⟩]⟩)]
    hwf (by decide)

/-! ### C10 — zone decision and authority are always store-fresh -/

/-- C10: every lookup — a cache hit included — re-derives the zone resolution
and the authority rows from the durable store: `zoneName` (which decides
NXDOMAIN vs NOERROR) and `authorityRecords` are functions of the store alone,
while the served record rows come either from an unexpired cache entry or
from a fresh `getByName` read. -/
theorem c10_lookup_zone_fresh (ipMatch : String → String → Bool) (db : Db) (cache : Cache)
    (cacheTtlMs now : Nat) (name : String) (qtype : Nat) (clientIp : String)
    (rng : Nat → Nat) (res : LookupResult) (c2 : Cache)
    (h : lookup ipMatch db cache cacheTtlMs now name qtype clientIp rng = some (res, c2)) :
    ∃ fqdn bare, normalizeFqdn name = some fqdn ∧ normalizeDomain fqdn = some bare ∧
      res.zoneName = resolveZoneName db.domains bare ∧
      res.authorityRecords = getAuthorityRecords db (resolveZoneName db.domains bare) ∧
      ((∃ entry, cacheGet cache fqdn = some entry ∧ now < entry.expiresAt ∧
          res.records = selectRecordsForQuery ipMatch entry.records qtype clientIp rng) ∨
        res.records = selectRecordsForQuery ipMatch (getByName db fqdn) qtype clientIp rng) :=
  lookup_spec h

/-- Closed instance of `c10_lookup_zone_fresh` on a STALE cache entry: the
zone was deleted from the store, the cache still holds rows for the name, the
lookup is a cache hit — yet `zoneName` is `none`, reflecting the store. -/
theorem c10_lookup_zone_fresh_witness :
    lookup (fun _ _ => false) ⟨[], [], [], []⟩
        [("a.z.", ⟨100,
          [⟨1, some 1, "a.z.", "A", 60, "1.2.3.4", 100, "", 1, none, 1, none, none⟩]⟩)]
        5000 0 "a.z." 1 "" (fun _ => 0) =
      some (⟨none, true, [⟨"A", 60, "1.2.3.4"⟩], []⟩,
        [("a.z.", ⟨100,
          [⟨1, some 1, "a.z.", "A", 60, "1.2.3.4", 100, "", 1, none, 1, none, none⟩]⟩)]) ∧
    ∃ fqdn bare, normalizeFqdn "a.z." = some fqdn ∧ normalizeDomain fqdn = some bare ∧
      (LookupResult.mk none true [⟨"A", 60, "1.2.3.4"⟩] []).zoneName =
        resolveZoneName (Db.mk [] [] [] []).domains bare ∧
      (LookupResult.mk none true [⟨"A", 60, "1.2.3.4"⟩] []).authorityRecords =
        getAuthorityRecords ⟨[], [], [], []⟩ (resolveZoneName (Db.mk [] [] [] []).domains bare) ∧
      ((∃ entry, cacheGet
            [("a.z.", ⟨100,
              [⟨1, some 1, "a.z.", "A", 60, "1.2.3.4", 100, "", 1, none, 1, none, none⟩]⟩)]
            fqdn = some entry ∧ 0 < entry.expiresAt ∧
          (LookupResult.mk none true [⟨"A", 60, "1.2.3.4"⟩] []).records =
            selectRecordsForQuery (fun _ _ => false) entry.records 1 "" (fun _ => 0)) ∨
        (LookupResult.mk none true [⟨"A", 60, "1.2.3.4"⟩] []).records =
          selectRecordsForQuery (fun _ _ => false)
            (getByName ⟨[], [], [], []⟩ fqdn) 1 "" (fun _ => 0)) := by
  constructor
  · decide
  · exact c10_lookup_zone_fresh (fun _ _ => false) ⟨[], [], [], []⟩
      [("a.z.", ⟨100,
        [⟨1, some 1, "a.z.", "A", 60, "1.2.3.4", 100, "", 1, none, 1, none, none⟩]⟩)]
      5000 0 "a.z." 1 "" (fun _ => 0) ⟨none, true, [⟨"A", 60, "1.2.3.4"⟩], []⟩
      [("a.z.", ⟨100,
        [⟨1, some 1, "a.z.", "A", 60, "1.2.3.4", 100, "", 1, none, 1, none, none⟩]⟩)]
      (by decide)

/-! ### C1 — cache invalidation by the health checker and the DDNS path -/

/-- C1 counterexample: a DDNS update against a system whose lookup cache holds
an entry leaves the cache exactly as it was — `updateDynamicDns` in
`api-server.ts` performs no cache clear (the API process has no reference to
the repository's in-memory cache), so the claim "after every DDNS update the
cache is cleared in its entirety" is false. -/
theorem c1_counterexample :
    (ddnsUpdateSystem ⟨exDbDdns, [("x.", ⟨100, []⟩)]⟩ exDdnsToken "5.6.7.8" "agent").1.cache
        = [("x.", ⟨100, []⟩)] ∧
      [("x.", CacheEntry.mk 100 [])] ≠ ([] : Cache) := by
  constructor
  · decide
  · decide

theorem foldl_health_cache_empty (probe : Nat → Option Nat) (now : Nat) :
    ∀ (l : List (Nat × String)) (s : SystemState), l ≠ [] →
      (l.foldl
        (fun acc t =>
          { db := updateHealth acc.db (classifyProbe (probe t.1)).1
              (classifyProbe (probe t.1)).2 now t.1,
            cache := ([] : Cache) })
        s).cache = [] := by
  intro l
  induction l with
  | nil => intro s h; exact absurd rfl h
  | cons a t ih =>
    intro s _
    rw [List.foldl_cons]
    by_cases ht : t = []
    · subst ht; rw [List.foldl_nil]
    · exact ih _ ht

/-- C1 (amended): after each health-state write by the health checker the
whole lookup cache is cleared (so after any pass with at least one target the
cache is empty and the next lookup reads the store); the DDNS update path
does NOT clear the cache — it leaves it untouched, so a DDNS update is
observed only once the cached entry expires. -/
theorem c1_cache_clearing (st : SystemState) (probe : Nat → Option Nat) (now : Nat)
    (ddns : DdnsTokenRow) (ip ua : String) :
    (healthTargets st.db ≠ [] → (runHealthChecks st probe now).cache = []) ∧
      (ddnsUpdateSystem st ddns ip ua).1.cache = st.cache := by
  constructor
  · intro hne
    unfold runHealthChecks
    exact foldl_health_cache_empty probe now (healthTargets st.db) st hne
  · rfl

/-- Closed instance of `c1_cache_clearing`: one health target, one probe pass,
and a DDNS update, on a system whose cache is nonempty. -/
theorem c1_cache_clearing_witness :
    healthTargets exDbHealth ≠ [] ∧
      (runHealthChecks ⟨exDbHealth, [("a.z.", ⟨50, []⟩)]⟩ (fun _ => some 200) 1).cache = [] ∧
      (ddnsUpdateSystem ⟨exDbHealth, [("a.z.", ⟨50, []⟩)]⟩ exDdnsToken "5.6.7.8" "ua").1.cache
        = [("a.z.", ⟨50, []⟩)] := by
  refine ⟨by decide, ?_, ?_⟩
  · exact (c1_cache_clearing ⟨exDbHealth, [("a.z.", ⟨50, []⟩)]⟩ (fun _ => some 200) 1
      exDdnsToken "5.6.7.8" "ua").1 (by decide)
  · exact (c1_cache_clearing ⟨exDbHealth, [("a.z.", ⟨50, []⟩)]⟩ (fun _ => some 200) 1
      exDdnsToken "5.6.7.8" "ua").2

/-! ### C2 — DDNS write sequence is not atomic -/

/-- C2: the three DDNS write statements (`DELETE` the A rows, `INSERT` the new
A row, `INSERT` the audit row) run as independent auto-committing statements —
`updateDynamicDns` has no `db.transaction` wrapper.  If the INSERT fails after
the DELETE committed (one statement succeeds, `failAfter = 1`), the caller
gets an error but the durable state has changed: the A rows for the bound
name are gone and nothing replaced them.  This contradicts the required
rollback-to-unchanged-state semantics, evaluated here at a concrete store. -/
theorem c2_no_transaction_partial_write :
    (runWithoutTransaction exDbDdns
        (ddnsWriteStatements exDdnsToken "5.6.7.8" "agent"
          (findRecordValue exDbDdns exDdnsToken.domain_id exDdnsToken.fqdn)) 1).2 = false ∧
      (runWithoutTransaction exDbDdns
        (ddnsWriteStatements exDdnsToken "5.6.7.8" "agent"
          (findRecordValue exDbDdns exDdnsToken.domain_id exDdnsToken.fqdn)) 1).1
        ≠ exDbDdns ∧
      ((runWithoutTransaction exDbDdns
        (ddnsWriteStatements exDdnsToken "5.6.7.8" "agent"
          (findRecordValue exDbDdns exDdnsToken.domain_id exDdnsToken.fqdn)) 1).1.records.filter
        fun r => r.domain_id == some 1 && r.fqdn == "home.z." && r.type == "A") = [] ∧
      (exDbDdns.records.filter
        fun r => r.domain_id == some 1 && r.fqdn == "home.z." && r.type == "A") ≠ [] := by
  refine ⟨by decide, by decide, by decide, by decide⟩

/-! ### Store-read helper lemmas -/

theorem getByName_rows {db : Db} {fqdn : String} :
    ∀ r ∈ getByName db fqdn, r ∈ db.records ∧ r.fqdn = fqdn := by
  intro r hr
  unfold getByName at hr
  have hperm := List.perm_insertionSort byTypeRankId
    (db.records.filter fun r => r.fqdn == fqdn)
  have h1 := hperm.mem_iff.mp hr
  have h2 := List.mem_filter.mp h1
  exact ⟨h2.1, by simpa using h2.2⟩

theorem cacheGet_entry_rows {db : Db} {cache : Cache} {fqdn : String} {entry : CacheEntry}
    (hwf : CacheWf db cache) (hcg : cacheGet cache fqdn = some entry) :
    ∀ r ∈ entry.records, r ∈ db.records ∧ r.fqdn = fqdn := by
  intro r hr
  unfold cacheGet at hcg
  cases hf : cache.find? (fun p => p.1 == fqdn) with
  | none => rw [hf] at hcg; exact absurd hcg (by simp)
  | some p =>
    rw [hf] at hcg
    have hp := List.mem_of_find?_eq_some hf
    have hkey : p.1 = fqdn := by simpa using List.find?_some hf
    have hpe : p.2 = entry := Option.some.inj hcg
    have := hwf p hp r (by rw [hpe]; exact hr)
    exact ⟨this.1, by rw [this.2, hkey]⟩

theorem getAuthorityRecords_types {db : Db} {zn : Option String} :
    ∀ r ∈ getAuthorityRecords db zn, r.type = "SOA" ∨ r.type = "NS" := by
  intro r hr
  unfold getAuthorityRecords at hr
  cases zn with
  | none => exact absurd hr (by simp)
  | some z =>
    unfold authorityByZone at hr
    obtain ⟨s, hs, rfl⟩ := List.mem_map.mp hr
    have hperm := List.perm_insertionSort byAuthRankId
      (db.records.filter fun r => r.fqdn == z && (r.type == "SOA" || r.type == "NS"))
    have h1 := hperm.mem_iff.mp hs
    have h2 := (List.mem_filter.mp h1).2
    simp only [Bool.and_eq_true, Bool.or_eq_true, beq_iff_eq] at h2
    exact h2.2

theorem normalizeFqdn_isSome {z : String} (h : trimStr z ≠ "") :
    ∃ f, normalizeFqdn z = some f := by
  have hne : ¬(lowerStr (trimStr z) = "") := by
    intro hc
    apply h
    have hd := congrArg String.data hc
    rw [lowerStr_data] at hd
    have h2 : (trimStr z).data = [] := List.map_eq_nil_iff.mp hd
    apply str_ext
    rw [h2]
  unfold normalizeFqdn
  rw [if_neg hne]
  exact ⟨_, rfl⟩

theorem normalizeDomain_of_fqdn {name fqdn bare : String}
    (hfq : normalizeFqdn name = some fqdn) (hbare : normalizeDomain fqdn = some bare) :
    bare = dropLastStr fqdn := by
  unfold normalizeDomain at hbare
  rw [normalizeFqdn_idem hfq] at hbare
  simpa using hbare.symm

theorem resolveZoneName_ne_none {domains : List DomainRow} {bare : String} {d : DomainRow}
    (hd : d ∈ domains) (hm : zoneMatches bare d.name = true)
    (htrim : ∀ d2 ∈ domains, trimStr d2.name ≠ "") :
    resolveZoneName domains bare ≠ none := by
  have hperm := List.perm_insertionSort byLenDesc
    ((domains.map DomainRow.name).filter (zoneMatches bare))
  cases hlist : zonesBySuffix domains bare with
  | nil =>
    exfalso
    have hmem : d.name ∈ (domains.map DomainRow.name).filter (zoneMatches bare) :=
      List.mem_filter.mpr ⟨List.mem_map.mpr ⟨d, hd, rfl⟩, hm⟩
    have : d.name ∈ zonesBySuffix domains bare := by
      unfold zonesBySuffix
      exact hperm.symm.mem_iff.mp hmem
    rw [hlist] at this
    exact absurd this (by simp)
  | cons z0 tail =>
    have hz0mem : z0 ∈ zonesBySuffix domains bare := by
      rw [hlist]
      exact List.mem_cons_self z0 tail
    have hz0f : z0 ∈ (domains.map DomainRow.name).filter (zoneMatches bare) := by
      unfold zonesBySuffix at hz0mem
      exact hperm.mem_iff.mp hz0mem
    obtain ⟨d2, hd2, hd2n⟩ := List.mem_map.mp (List.mem_filter.mp hz0f).1
    obtain ⟨f, hf⟩ := normalizeFqdn_isSome (hd2n ▸ htrim d2 hd2)
    unfold resolveZoneName
    rw [hlist]
    intro hc
    simp only [List.head?_cons] at hc
    have hc2 : normalizeFqdn z0 = none := hc
    rw [hf] at hc2
    exact absurd hc2 (by simp)

/-! ### C5 — response header bits, RCODE, and the two sections -/

/-- C5: for every successfully handled IN-class query, the reply's flag word
has QR=1, OPCODE=0, AA=1, TC=0, RA=0 and RD echoed from the query; the RCODE
is 0 (NOERROR) exactly when a zone resolves for the qname and 3 (NXDOMAIN)
when none does; the authority section equals the zone's SOA/NS rows exactly
when the answer set is empty, and is empty when answers exist; and on
NXDOMAIN both sections are empty (given the store invariant that records
live inside stored zones and cache consistency). -/
theorem c5_response_header_and_sections (ipMatch : String → String → Bool) (db : Db)
    (cache : Cache) (cacheTtlMs now : Nat) (ctx : QueryContext) (clientIp : String)
    (rng : Nat → Nat) (resp : DnsResponse) (cache2 : Cache)
    (hdb : DbWf db) (hcw : CacheWf db cache) (hcls : ctx.qclass = 1)
    (h : handleQuery ipMatch db cache cacheTtlMs now ctx clientIp rng = some (resp, cache2)) :
    resp.flags / 2 ^ 15 % 2 = 1 ∧ resp.flags / 2 ^ 11 % 16 = 0 ∧
    resp.flags / 2 ^ 10 % 2 = 1 ∧ resp.flags / 2 ^ 9 % 2 = 0 ∧
    resp.flags / 2 ^ 8 % 2 = ctx.flags / 2 ^ 8 % 2 ∧ resp.flags / 2 ^ 7 % 2 = 0 ∧
    ∃ fqdn bare, normalizeFqdn ctx.qname = some fqdn ∧ normalizeDomain fqdn = some bare ∧
      (resp.flags % 16 = if (resolveZoneName db.domains bare).isSome then 0 else 3) ∧
      (resp.answers = [] →
        resp.authority = getAuthorityRecords db (resolveZoneName db.domains bare)) ∧
      (resp.answers ≠ [] → resp.authority = []) ∧
      (resolveZoneName db.domains bare = none → resp.answers = [] ∧ resp.authority = []) := by
  unfold handleQuery at h
  cases hl : lookup ipMatch db cache cacheTtlMs now ctx.qname ctx.qtype clientIp rng with
  | none => rw [hl] at h; exact absurd h (by simp)
  | some rc =>
    rw [hl] at h
    obtain ⟨res, c3⟩ := rc
    have hpair := Option.some.inj h
    have h1 := congrArg Prod.fst hpair
    simp only [] at h1
    have hresp : resp = buildSuccessResponse ctx res.records res.authorityRecords
        res.zoneName.isSome res.zoneName := h1.symm
    subst hresp
    obtain ⟨fqdn, bare, hfq, hbare, hzn, hauth, hrec⟩ := lookup_spec hl
    have hflags : (buildSuccessResponse ctx res.records res.authorityRecords
        res.zoneName.isSome res.zoneName).flags =
        2 ^ 15 + 2 ^ 10 + ctx.flags / 2 ^ 8 % 2 * 2 ^ 8 +
          (if res.zoneName.isSome then 0 else 3) % 16 := rfl
    have hrc : (if res.zoneName.isSome then (0 : Nat) else 3) % 16 = 0 ∨
        (if res.zoneName.isSome then (0 : Nat) else 3) % 16 = 3 := by
      cases res.zoneName.isSome <;> simp
    refine ⟨?_, ?_, ?_, ?_, ?_, ?_, fqdn, bare, hfq, hbare, ?_, ?_, ?_, ?_⟩
    · rw [hflags]; rcases hrc with h0 | h0 <;> rw [h0] <;> omega
    · rw [hflags]; rcases hrc with h0 | h0 <;> rw [h0] <;> omega
    · rw [hflags]; rcases hrc with h0 | h0 <;> rw [h0] <;> omega
    · rw [hflags]; rcases hrc with h0 | h0 <;> rw [h0] <;> omega
    · rw [hflags]; rcases hrc with h0 | h0 <;> rw [h0] <;> omega
    · rw [hflags]; rcases hrc with h0 | h0 <;> rw [h0] <;> omega
    · rw [hflags, ← hzn]
      cases hb : res.zoneName.isSome <;> simp <;> omega
    · intro hansnil
      have hansnil2 : res.records.filter (shouldAnswerForType ctx.qtype) = [] := hansnil
      show (if (res.records.filter (shouldAnswerForType ctx.qtype)).length = 0 then
          res.authorityRecords.filter fun r => r.type == "SOA" || r.type == "NS"
        else []) = getAuthorityRecords db (resolveZoneName db.domains bare)
      rw [hansnil2, if_pos (by simp), hauth]
      refine List.filter_eq_self.mpr ?_
      intro r hr
      rcases getAuthorityRecords_types r hr with ht | ht <;> simp [ht]
    · intro hne
      have hne2 : res.records.filter (shouldAnswerForType ctx.qtype) ≠ [] := hne
      show (if (res.records.filter (shouldAnswerForType ctx.qtype)).length = 0 then
          res.authorityRecords.filter fun r => r.type == "SOA" || r.type == "NS"
        else []) = []
      rw [if_neg fun hc => hne2 (List.length_eq_zero.mp hc)]
    · intro hzero
      have hbd : bare = dropLastStr fqdn := normalizeDomain_of_fqdn hfq hbare
      have hpool : ∀ (l : List RecRow), (∀ r ∈ l, r ∈ db.records ∧ r.fqdn = fqdn) → l = [] := by
        intro l hl2
        cases l with
        | nil => rfl
        | cons r rest =>
          exfalso
          obtain ⟨hrdb, hrf⟩ := hl2 r (List.mem_cons_self r rest)
          obtain ⟨d, hd, hm⟩ := hdb.1 r hrdb
          rw [hrf, ← hbd] at hm
          exact resolveZoneName_ne_none hd hm hdb.2 hzero
      have hselnil : selectRecordsForQuery ipMatch [] ctx.qtype clientIp rng = [] := by
        unfold selectRecordsForQuery
        simp
      have hresnil : res.records = [] := by
        rcases hrec with ⟨entry, hcg, _, hsel⟩ | hsel
        · rw [hsel, hpool entry.records (cacheGet_entry_rows hcw hcg), hselnil]
        · rw [hsel, hpool (getByName db fqdn) getByName_rows, hselnil]
      refine ⟨?_, ?_⟩
      · show res.records.filter (shouldAnswerForType ctx.qtype) = []
        rw [hresnil]
        rfl
      · show (if (res.records.filter (shouldAnswerForType ctx.qtype)).length = 0 then
            res.authorityRecords.filter fun r => r.type == "SOA" || r.type == "NS"
          else []) = []
        rw [hresnil, if_pos (by simp), hauth, hzero]
        rfl

/-- Closed instance of `c5_response_header_and_sections`: the IN-class A
query `exCtxC5` against the one-record store. -/
theorem c5_response_header_and_sections_witness :
    DbWf exDbOneA ∧ CacheWf exDbOneA [] ∧ exCtxC5.qclass = 1 ∧
      handleQuery (fun _ _ => false) exDbOneA [] 5000 0 exCtxC5 "" (fun _ => 0) =
        some (exRespC5, exCacheC5) ∧
      (exRespC5.flags / 2 ^ 15 % 2 = 1 ∧ exRespC5.flags / 2 ^ 11 % 16 = 0 ∧
       exRespC5.flags / 2 ^ 10 % 2 = 1 ∧ exRespC5.flags / 2 ^ 9 % 2 = 0 ∧
       exRespC5.flags / 2 ^ 8 % 2 = exCtxC5.flags / 2 ^ 8 % 2 ∧
       exRespC5.flags / 2 ^ 7 % 2 = 0 ∧
       ∃ fqdn bare, normalizeFqdn exCtxC5.qname = some fqdn ∧
         normalizeDomain fqdn = some bare ∧
         (exRespC5.flags % 16 =
           if (resolveZoneName exDbOneA.domains bare).isSome then 0 else 3) ∧
         (exRespC5.answers = [] →
           exRespC5.authority =
             getAuthorityRecords exDbOneA (resolveZoneName exDbOneA.domains bare)) ∧
         (exRespC5.answers ≠ [] → exRespC5.authority = []) ∧
         (resolveZoneName exDbOneA.domains bare = none →
           exRespC5.answers = [] ∧ exRespC5.authority = [])) := by
  have hdb : DbWf exDbOneA := by unfold DbWf; exact ⟨by decide, by decide⟩
  have hcw : CacheWf exDbOneA [] := fun p hp => absurd hp (List.not_mem_nil p)
  have hq : handleQuery (fun _ _ => false) exDbOneA [] 5000 0 exCtxC5 "" (fun _ => 0) =
      some (exRespC5, exCacheC5) := by decide
  refine ⟨hdb, hcw, by decide, hq, ?_⟩
  exact c5_response_header_and_sections (fun _ _ => false) exDbOneA [] 5000 0 exCtxC5 ""
    (fun _ => 0) exRespC5 exCacheC5 hdb hcw (by decide) hq

/-! ### C6 — longest-suffix zone resolution at label boundaries -/

/-- `zoneMatches` is exactly "equal or a suffix starting at a label
separator" for wildcard-free lower-case inputs. -/
theorem zoneMatches_iff {bare z : String}
    (hz : ∀ c ∈ z.data, c ≠ '%' ∧ c ≠ '_')
    (hlb : lowerStr bare = bare) (hlz : lowerStr z = z) :
    zoneMatches bare z = true ↔ bare = z ∨ ('.' :: z.data) <:+ bare.data := by
  unfold zoneMatches
  rw [Bool.or_eq_true, beq_iff_eq, sqlLike_suffix_iff hz hlb hlz]

/-- C6 counterexample: the zone name `e_il.com` passes the API's only
validation (`normalizeDomain` accepts it unchanged), yet in
`zonesBySuffixStmt`'s `?1 LIKE '%.' || name` its `'_'` acts as a
single-character wildcard, so the queried name `x.evil.com` resolves to
that zone even though the zone is neither equal to the name nor a suffix
of it at a label boundary — exactly the partial-label match the claim says
never happens. -/
theorem c6_counterexample :
    normalizeDomain "e_il.com" = some "e_il.com" ∧
      resolveZoneName [⟨1, "e_il.com"⟩] "x.evil.com" = some "e_il.com." ∧
      ¬("x.evil.com" = "e_il.com" ∨
        ('.' :: ("e_il.com" : String).data) <:+ ("x.evil.com" : String).data) := by
  refine ⟨by decide, by decide, by decide⟩

/-- C6 (amended): for WILDCARD-FREE stored zone names, zone resolution
returns the `normalizeFqdn` of a stored zone name that equals the queried
bare name or is a suffix of it starting right after a `'.'` (a label
boundary, so zone `evil.com` never matches `xevil.com`), and that is
longest among all such zones; and it returns `none` exactly when no stored
zone stands in that relation to the name.  The `hlz`/`htrim`/`hlb`
hypotheses hold of every store: zone names and queried names pass through
`normalizeDomain`/`normalizeFqdn` (trim, lower-case, nonblank) on every
path.  The wildcard-freeness hypothesis `hwild`, however, is a real
restriction: the API stores zone names with no character validation, and
for a zone name containing `'%'` or `'_'` the SQL `?1 LIKE '%.' || name`
treats those characters as wildcards, so the property FAILS — see the
counterexample, where `x.evil.com` resolves to the stored zone
`e_il.com`. -/
theorem c6_resolve_zone (domains : List DomainRow) (bare : String)
    (hwild : ∀ d ∈ domains, ∀ c ∈ d.name.data, c ≠ '%' ∧ c ≠ '_')
    (hlz : ∀ d ∈ domains, lowerStr d.name = d.name)
    (htrim : ∀ d ∈ domains, trimStr d.name ≠ "")
    (hlb : lowerStr bare = bare) :
    (∀ zfq, resolveZoneName domains bare = some zfq →
      ∃ d ∈ domains, normalizeFqdn d.name = some zfq ∧
        (bare = d.name ∨ ('.' :: d.name.data) <:+ bare.data) ∧
        ∀ d2 ∈ domains, (bare = d2.name ∨ ('.' :: d2.name.data) <:+ bare.data) →
          d2.name.length ≤ d.name.length) ∧
    (resolveZoneName domains bare = none →
      ∀ d ∈ domains, ¬(bare = d.name ∨ ('.' :: d.name.data) <:+ bare.data)) := by
  have hperm := List.perm_insertionSort byLenDesc
    ((domains.map DomainRow.name).filter (zoneMatches bare))
  constructor
  · intro zfq hz
    unfold resolveZoneName at hz
    cases hlist : zonesBySuffix domains bare with
    | nil => rw [hlist] at hz; exact absurd hz (by simp)
    | cons z0 tail =>
      rw [hlist] at hz
      have hz0 : normalizeFqdn z0 = some zfq := hz
      have hz0mem : z0 ∈ (domains.map DomainRow.name).filter (zoneMatches bare) := by
        have hmem : z0 ∈ zonesBySuffix domains bare := by
          rw [hlist]; exact List.mem_cons_self z0 tail
        unfold zonesBySuffix at hmem
        exact hperm.mem_iff.mp hmem
      obtain ⟨d, hd, hdn⟩ := List.mem_map.mp (List.mem_filter.mp hz0mem).1
      have hmz : zoneMatches bare z0 = true := (List.mem_filter.mp hz0mem).2
      rw [← hdn] at hmz
      refine ⟨d, hd, by rw [hdn]; exact hz0, ?_, ?_⟩
      · exact (zoneMatches_iff (hwild d hd) hlb (hlz d hd)).mp hmz
      · intro d2 hd2 hm2
        have hm2z : zoneMatches bare d2.name = true :=
          (zoneMatches_iff (hwild d2 hd2) hlb (hlz d2 hd2)).mpr hm2
        have hmem2 : d2.name ∈ (domains.map DomainRow.name).filter (zoneMatches bare) :=
          List.mem_filter.mpr ⟨List.mem_map.mpr ⟨d2, hd2, rfl⟩, hm2z⟩
        have hmem2s : d2.name ∈ z0 :: tail := by
          rw [← hlist]
          show d2.name ∈ zonesBySuffix domains bare
          unfold zonesBySuffix
          exact hperm.symm.mem_iff.mp hmem2
        have hsorted2 : List.Sorted byLenDesc (z0 :: tail) := by
          rw [← hlist]
          exact List.sorted_insertionSort byLenDesc
            ((domains.map DomainRow.name).filter (zoneMatches bare))
        rcases List.mem_cons.mp hmem2s with heq | htl
        · rw [heq, hdn]
        · have hle := (List.sorted_cons.mp hsorted2).1 d2.name htl
          rw [hdn]
          exact hle
  · intro hnone d hd hm
    have hmz : zoneMatches bare d.name = true :=
      (zoneMatches_iff (hwild d hd) hlb (hlz d hd)).mpr hm
    exact resolveZoneName_ne_none hd hmz htrim hnone

/-- Closed instance of `c6_resolve_zone`: zones `z` and `a.z`, queried name
`b.a.z` — both zones match at a label boundary and resolution returns the
longer one, `a.z.`. -/
theorem c6_resolve_zone_witness :
    (∀ d ∈ exDomainsC6, ∀ c ∈ d.name.data, c ≠ '%' ∧ c ≠ '_') ∧
    (∀ d ∈ exDomainsC6, lowerStr d.name = d.name) ∧
    (∀ d ∈ exDomainsC6, trimStr d.name ≠ "") ∧
    lowerStr "b.a.z" = "b.a.z" ∧
    resolveZoneName exDomainsC6 "b.a.z" = some "a.z." ∧
    ((∀ zfq, resolveZoneName exDomainsC6 "b.a.z" = some zfq →
      ∃ d ∈ exDomainsC6, normalizeFqdn d.name = some zfq ∧
        ("b.a.z" = d.name ∨ ('.' :: d.name.data) <:+ "b.a.z".data) ∧
        ∀ d2 ∈ exDomainsC6,
          ("b.a.z" = d2.name ∨ ('.' :: d2.name.data) <:+ "b.a.z".data) →
          d2.name.length ≤ d.name.length) ∧
    (resolveZoneName exDomainsC6 "b.a.z" = none →
      ∀ d ∈ exDomainsC6, ¬("b.a.z" = d.name ∨ ('.' :: d.name.data) <:+ "b.a.z".data))) := by
  refine ⟨by decide, by decide, by decide, by decide, by decide, ?_⟩
  exact c6_resolve_zone exDomainsC6 "b.a.z" (by decide) (by decide) (by decide) (by decide)

end BunDns
